import Mathlib

/-!
Verification of the behavioral-specification inference pipeline of
`design-system-cli` (packages `functional-flows`, `functional-entities`,
`functional-rules`).

The TypeScript sources are shallowly embedded below:
* string/URL runtime helpers model the JavaScript standard library
  (`String.prototype.replace`, `String.prototype.split`, the WHATWG `URL`
  constructor) on the fragment of inputs the pipeline uses;
* each exported pipeline function is translated into a Lean function over
  explicit data types; file I/O is modelled by passing the (already
  JSON-decoded) file contents as `Option (Except String _)` values
  (`none` = file missing, `.error` = unparsable contents), and thrown
  exceptions are modelled with `Except String`.
-/

namespace DsCli

/-! ## JavaScript string runtime model (on `List Char`) -/

/-- Prefix test `needle.leadsWith hay`: does `hay` start with `needle`?
Model of prefix testing used by the regex models below. -/
def leadsWith : List Char → List Char → Bool
  | [], _ => true
  | _ :: _, [] => false
  | a :: as, b :: bs => a = b && leadsWith as bs

/-- Model of `String.prototype.includes(needle)` on char lists. -/
def containsSub (hay needle : List Char) : Bool :=
  match hay with
  | [] => needle.isEmpty
  | _ :: t => leadsWith needle hay || containsSub t needle

/-- First occurrence of `needle` inside `l`: returns the part before the
match and the part after it.  Used to model finding `"://"` in a URL. -/
def splitAtSub (needle : List Char) : List Char → Option (List Char × List Char)
  | [] => if needle.isEmpty then some ([], []) else none
  | c :: rest =>
    if leadsWith needle (c :: rest) then some ([], (c :: rest).drop needle.length)
    else match splitAtSub needle rest with
      | some (a, b) => some (c :: a, b)
      | none => none

/-- Model of `String.prototype.split(sep)` for a single-character
separator: `"a//b".split('/') = ["a", "", "b"]`, `"".split('/') = [""]`. -/
def splitOnChar (sep : Char) : List Char → List (List Char)
  | [] => [[]]
  | c :: rest =>
    match splitOnChar sep rest with
    | [] => [[]]
    | g :: gs => if c = sep then [] :: g :: gs else (c :: g) :: gs

/-- Model of `String.prototype.split(re)` where `re` is a character class
with `+` (one separator run = one boundary), e.g. `/[\s→-]+/`:
`"a--b" ↦ ["a","b"]`, `"-a" ↦ ["","a"]`, `"a-" ↦ ["a",""]`. -/
def splitRuns (p : Char → Bool) : List Char → List (List Char)
  | [] => [[]]
  | c :: rest =>
    let nextSep : Bool := match rest with
      | [] => false
      | d :: _ => p d
    match splitRuns p rest with
    | [] => [[]]
    | g :: gs =>
      if p c then
        if nextSep then g :: gs else [] :: g :: gs
      else (c :: g) :: gs

/-- ASCII lower-casing of a string, model of `String.prototype.toLowerCase`
on the ASCII inputs used by the pipeline. -/
def jsToLower (s : String) : String :=
  (s.toList.map Char.toLower).asString

/-- Model of `word.charAt(0).toUpperCase() + word.slice(1)` (no lower-casing of the
tail), used by `generateScreenLabel`. -/
def capHead : List Char → List Char
  | [] => []
  | c :: rest => c.toUpper :: rest

/-- Model of `word.charAt(0).toUpperCase() + word.slice(1).toLowerCase()`, used by
`extractEntityName`'s PascalCase step. -/
def capHeadLowerRest : List Char → List Char
  | [] => []
  | c :: rest => c.toUpper :: rest.map Char.toLower

/-- Remove a single leading occurrence of `c` (model of `replace(/^\//, '')`). -/
def dropOneLead (c : Char) : List Char → List Char
  | [] => []
  | x :: rest => if x = c then rest else x :: rest

/-- Remove a single trailing occurrence of `c` (model of `replace(/\/$/, '')`). -/
def dropOneTrail (c : Char) (l : List Char) : List Char :=
  (dropOneLead c l.reverse).reverse

/-- JavaScript `\w` word characters `[A-Za-z0-9_]`. -/
def isWordChar (c : Char) : Bool :=
  c.isAlpha || c.isDigit || c = '_'

/-! ## WHATWG `URL` constructor model

Only the `pathname` component is ever read by the pipeline, so the model
records just that.  `parseUrl` models `new URL(s)` (throwing = `none`) on
absolute `scheme://host/path?query#fragment` URLs; `parseUrlWithBase`
models `new URL(s, 'http://example.com')` as used by `normalizeUrlPath`. -/

structure UrlParts where
  pathname : String
  deriving Repr, DecidableEq

/-- Is `c` allowed in a URL scheme after the first character? -/
def isSchemeChar (c : Char) : Bool :=
  c.isAlpha || c.isDigit || c = '+' || c = '-' || c = '.'

/-- Characters terminating the host component. -/
def isHostEnd (c : Char) : Bool :=
  c = '/' || c = '?' || c = '#'

/-- Characters terminating the pathname component. -/
def isPathEnd (c : Char) : Bool :=
  c = '?' || c = '#'

/-- Model of `new URL(s)`: requires `scheme "://" host [path]`, returns the
pathname (`"/"` when the path is empty); `none` models a thrown
`TypeError: Invalid URL`. -/
def parseUrl (s : String) : Option UrlParts :=
  match splitAtSub "://".toList s.toList with
  | none => none
  | some (scheme, rest) =>
    match scheme with
    | [] => none
    | c :: cs =>
      if c.isAlpha && cs.all isSchemeChar then
        let host := rest.takeWhile (fun ch => !isHostEnd ch)
        if host.isEmpty then none
        else
          let pathPart := (rest.dropWhile (fun ch => !isHostEnd ch)).takeWhile
            (fun ch => !isPathEnd ch)
          some ⟨if pathPart.isEmpty then "/" else pathPart.asString⟩
      else none

/-- Model of `new URL(s, 'http://example.com')`: absolute URLs parse as in
`parseUrl`; path-absolute and relative references resolve against the
base's root path. -/
def parseUrlWithBase (s : String) : Option UrlParts :=
  match parseUrl s with
  | some u => some u
  | none =>
    if containsSub s.toList "://".toList then none
    else
      match s.toList with
      | '/' :: '/' :: rest =>
        -- protocol-relative reference: `//host/path`
        let host := rest.takeWhile (fun ch => !isHostEnd ch)
        if host.isEmpty then none
        else
          let pathPart := (rest.dropWhile (fun ch => !isHostEnd ch)).takeWhile
            (fun ch => !isPathEnd ch)
          some ⟨if pathPart.isEmpty then "/" else pathPart.asString⟩
      | '/' :: rest =>
        some ⟨('/' :: rest.takeWhile (fun ch => !isPathEnd ch)).asString⟩
      | l =>
        some ⟨('/' :: l.takeWhile (fun ch => !isPathEnd ch)).asString⟩

/-! ## Trace model (`functional-trace` types)

`NetworkShape` is the recursive type-only payload description
(`string | NetworkShape[] | {key: NetworkShape}`); JavaScript objects are
modelled as ordered key/value lists (JS `Map`/object insertion order).
Optional TS fields become `Option`; JS truthiness of an optional string is
`isSome` with a non-empty value.  Timestamps are `Int` (JS numbers used
only through subtraction and comparison here). -/

inductive NetworkShape where
  | prim (s : String)
  | arr (xs : List NetworkShape)
  | obj (fields : List (String × NetworkShape))
  deriving Repr

structure TraceEvent where
  id : String
  type : String
  timestamp : Int
  screenId : Option String := none
  -- UI event properties
  selector : Option String := none
  label : Option String := none
  value : Option String := none
  -- Network event properties
  method : Option String := none
  url : Option String := none
  status : Option Int := none
  requestShape : Option NetworkShape := none
  responseShape : Option NetworkShape := none
  -- Navigation properties
  fromUrl : Option String := none
  toUrl : Option String := none
  deriving Repr

structure TraceSession where
  id : String
  startTime : Int
  endTime : Option Int := none
  events : List TraceEvent
  deriving Repr

structure TraceMeta where
  url : String
  recordedAt : String := ""
  viewport : Int × Int := (1280, 720)
  userAgent : Option String := none
  duration : Option Int := none
  deriving Repr, DecidableEq

structure TraceOutput where
  meta : TraceMeta
  sessions : List TraceSession
  deriving Repr

/-- JS truthiness of an optional string field (`undefined` and `""` are
falsy). -/
def strTruthy : Option String → Bool
  | none => false
  | some s => s ≠ ""

/-! ## `functional-flows` output types -/

structure Screen where
  id : String
  urlPattern : String
  label : String
  primaryActions : List String
  deriving Repr, DecidableEq

structure FlowStep where
  type : String
  screen : String
  duration : Int
  action : Option String := none
  operation : Option String := none
  deriving Repr, DecidableEq

structure Flow where
  id : String
  name : String
  fromScreen : String
  toScreen : String
  steps : List FlowStep
  avgDuration : Int
  deriving Repr, DecidableEq

/-! ## `functional-flows/src/flows.ts` -/

/-- Embedding of `generateScreenId` (flows.ts:23): slugify the URL's pathname; root path
is the reserved landing id; an un-parseable URL yields `screen-unknown`. -/
def generateScreenId (url : String) : String :=
  match parseUrl url with
  | none => "screen-unknown"
  | some u =>
    let pathname := u.pathname
    if pathname = "/" || pathname = "" then "screen-landing"
    else
      let clean := ((((dropOneTrail '/' (dropOneLead '/' pathname.toList))).map
          (fun c => if c = '/' then '-' else c)).filter
          (fun c => c.isAlpha || c.isDigit || c = '-')).asString
      "screen-" ++ (if clean = "" then "root" else clean)

/-- Embedding of `generateScreenLabel` (flows.ts:48): title-case each path segment and
join with `" → "`. -/
def generateScreenLabel (url : String) : String :=
  match parseUrl url with
  | none => "Unknown Screen"
  | some u =>
    let pathname := u.pathname
    if pathname = "/" || pathname = "" then "Landing Page"
    else
      let parts := ((splitOnChar '/' pathname.toList).filter
          (fun p => p.length > 0)).map
        (fun p => String.intercalate " "
          (((splitOnChar '-' p).map capHead).map List.asString))
      String.intercalate " → " parts

/-- State threaded through `extractScreens`' per-session event loop:
the session-local current URL and accumulated click-action ids, plus the
global screen map (insertion-ordered, as a JS `Map`). -/
structure ScreenScanState where
  currentUrl : String
  actions : List String
  screens : List Screen
  deriving Repr, DecidableEq

/-- The inner dedup push of `extractScreens` (flows.ts:112-116): append
`a` unless already present. -/
def addUnique (pa : List String) (a : String) : List String :=
  if a ∈ pa then pa else pa ++ [a]

/-- Push every accumulated action id not already present, in order. -/
def addActions (pa : List String) (acts : List String) : List String :=
  acts.foldl addUnique pa

/-- The navigation tracking of the event loop (flows.ts:88-90): a
`navigate` event with a truthy `toUrl` updates the current URL. -/
def navTarget (currentUrl : String) (e : TraceEvent) : String :=
  match e.toUrl with
  | some u => if e.type = "navigate" && u ≠ "" then u else currentUrl
  | none => currentUrl

/-- The screen-creation step of `extractScreens` (flows.ts:101-107):
create the screen record if its id is new.  `.error` models the uncaught
`new URL(currentUrl)` `TypeError` thrown at flows.ts:104 when the record
must be created for an un-parseable URL. -/
def ensureScreen (screens : List Screen) (cu sid : String) :
    Except String (List Screen) :=
  if (screens.find? (fun s => s.id = sid)).isSome then Except.ok screens
  else match parseUrl cu with
    | none => Except.error "Invalid URL"
    | some u => Except.ok (screens ++
        [{ id := sid, urlPattern := u.pathname,
           label := generateScreenLabel cu, primaryActions := [] }])

/-- The action-attribution step (flows.ts:110-116): push every accumulated
action id not already present onto the current screen. -/
def attributeActions (screens : List Screen) (sid : String)
    (acts : List String) : List Screen :=
  screens.map (fun s =>
    if s.id = sid then { s with primaryActions := addActions s.primaryActions acts }
    else s)

/-- One iteration of the `extractScreens` event loop (flows.ts:86-118). -/
def screenStep (st : ScreenScanState) (e : TraceEvent) :
    Except String ScreenScanState :=
  let cu := navTarget st.currentUrl e
  let acts := if e.type = "click" && cu ≠ "" then st.actions ++ [e.id]
    else st.actions
  if cu ≠ "" then
    let sid := generateScreenId cu
    match ensureScreen st.screens cu sid with
    | Except.error m => Except.error m
    | Except.ok screens =>
      Except.ok { currentUrl := cu, actions := acts,
                  screens := attributeActions screens sid acts }
  else
    Except.ok { currentUrl := cu, actions := acts, screens := st.screens }

/-- Run the event loop over one session's events. -/
def screenScanEvents : List TraceEvent → ScreenScanState →
    Except String ScreenScanState
  | [], st => Except.ok st
  | e :: rest, st =>
    match screenStep st e with
    | Except.error m => Except.error m
    | Except.ok st' => screenScanEvents rest st'

/-- Run the session loop of `extractScreens` (flows.ts:82): the screen map
is shared across sessions, `currentUrl`/`actions` restart per session. -/
def screenScanSessions (metaUrl : String) : List TraceSession → List Screen →
    Except String (List Screen)
  | [], screens => Except.ok screens
  | s :: rest, screens =>
    match screenScanEvents s.events
        { currentUrl := metaUrl, actions := [], screens := screens } with
    | Except.error m => Except.error m
    | Except.ok st => screenScanSessions metaUrl rest st.screens

/-- Embedding of `extractScreens` (flows.ts:78-122). -/
def extractScreens (trace : TraceOutput) : Except String (List Screen) :=
  screenScanSessions trace.meta.url trace.sessions []

/-- Configuration of the flows stage (types.ts): `minStepsForFlow` and
`maxFlowDuration` are applied through JS `||`, so `0` falls back to the
default as well. -/
structure FlowsConfig where
  tracePath : String := "trace.json"
  outScreens : String := "screens.json"
  outFlows : String := "flows.json"
  minStepsForFlow : Option Nat := none
  maxFlowDuration : Option Int := none
  deriving Repr, DecidableEq

/-- Model of `config.minStepsForFlow || 2` (flows.ts:133). -/
def effectiveMinSteps (cfg : FlowsConfig) : Nat :=
  match cfg.minStepsForFlow with
  | some n => if n = 0 then 2 else n
  | none => 2

/-- Model of `config.maxFlowDuration || 5 * 60 * 1000` (flows.ts:134). -/
def effectiveMaxDuration (cfg : FlowsConfig) : Int :=
  match cfg.maxFlowDuration with
  | some d => if d = 0 then 300000 else d
  | none => 300000

/-- Per-session state of the `extractFlows` event loop; `flows` is the
stage-global accumulator (flow ids number flows across sessions). -/
structure FlowScanState where
  currentUrl : String
  currentScreenId : String
  flowSteps : List FlowStep
  flowStartTime : Int
  prevTimestamp : Option Int
  flows : List Flow
  deriving Repr, DecidableEq

/-- The step record built for one event (flows.ts:154-164): `click` steps
carry the selector, `network` steps carry `"METHOD pathname"`.  `.error`
models the uncaught `new URL(event.url!)` `TypeError` thrown at
flows.ts:163 for a network event with a missing or un-parseable URL. -/
def buildFlowStep (currentScreenId : String) (duration : Int)
    (e : TraceEvent) : Except String FlowStep :=
  if e.type = "click" then
    Except.ok { type := e.type, screen := currentScreenId,
                duration := duration, action := e.selector }
  else if e.type = "network" then
    match e.url with
    | none => Except.error "Invalid URL"
    | some u =>
      match parseUrl u with
      | none => Except.error "Invalid URL"
      | some parsed =>
        let methodStr := match e.method with
          | some m => m
          | none => "undefined"
        Except.ok { type := e.type, screen := currentScreenId,
                    duration := duration,
                    operation := some (methodStr ++ " " ++ parsed.pathname) }
  else
    Except.ok { type := e.type, screen := currentScreenId, duration := duration }

/-- The flow-emission check at a navigation boundary (flows.ts:169-204). -/
def flowNavStep (minSteps : Nat) (maxDuration : Int) (screens : List Screen)
    (st : FlowScanState) (e : TraceEvent) : FlowScanState :=
  match e.toUrl with
  | some newUrl =>
    if e.type = "navigate" && newUrl ≠ "" then
      let newScreenId := generateScreenId newUrl
      let st :=
        if newScreenId ≠ st.currentScreenId && st.flowSteps.length ≥ minSteps then
          let flowDuration := e.timestamp - st.flowStartTime
          let flows :=
            if flowDuration ≤ maxDuration then
              let fromLabel := match screens.find? (fun s => s.id = st.currentScreenId) with
                | some s => s.label
                | none => "Unknown"
              let toLabel := match screens.find? (fun s => s.id = newScreenId) with
                | some s => s.label
                | none => "Unknown"
              st.flows ++
                [{ id := "flow-" ++ toString (st.flows.length + 1),
                   name := fromLabel ++ " → " ++ toLabel,
                   fromScreen := st.currentScreenId,
                   toScreen := newScreenId,
                   steps := st.flowSteps,
                   avgDuration := flowDuration }]
            else st.flows
          { st with flows := flows, flowSteps := [], flowStartTime := e.timestamp }
        else st
      { st with currentUrl := newUrl, currentScreenId := newScreenId }
    else
      st
  | none => st

/-- One iteration of the `extractFlows` event loop (flows.ts:150-205):
append the step record, remember the timestamp, then handle a possible
navigation boundary. -/
def flowStep (minSteps : Nat) (maxDuration : Int) (screens : List Screen)
    (st : FlowScanState) (e : TraceEvent) : Except String FlowScanState :=
  let duration : Int := match st.prevTimestamp with
    | some p => e.timestamp - p
    | none => 0
  match buildFlowStep st.currentScreenId duration e with
  | Except.error m => Except.error m
  | Except.ok step =>
    Except.ok (flowNavStep minSteps maxDuration screens
      { st with flowSteps := st.flowSteps ++ [step],
                prevTimestamp := some e.timestamp } e)

/-- Run the `extractFlows` event loop over one session's events. -/
def flowScanEvents (minSteps : Nat) (maxDuration : Int) (screens : List Screen) :
    List TraceEvent → FlowScanState → Except String FlowScanState
  | [], st => Except.ok st
  | e :: rest, st =>
    match flowStep minSteps maxDuration screens st e with
    | Except.error m => Except.error m
    | Except.ok st' => flowScanEvents minSteps maxDuration screens rest st'

/-- Run the session loop of `extractFlows` (flows.ts:143-206). -/
def flowScanSessions (metaUrl : String) (minSteps : Nat) (maxDuration : Int)
    (screens : List Screen) : List TraceSession → List Flow →
    Except String (List Flow)
  | [], flows => Except.ok flows
  | s :: rest, flows =>
    match flowScanEvents minSteps maxDuration screens s.events
        { currentUrl := metaUrl, currentScreenId := generateScreenId metaUrl,
          flowSteps := [], flowStartTime := s.startTime,
          prevTimestamp := none, flows := flows } with
    | Except.error m => Except.error m
    | Except.ok st => flowScanSessions metaUrl minSteps maxDuration screens rest st.flows

/-- Embedding of `extractFlows` (flows.ts:127-209). -/
def extractFlows (trace : TraceOutput) (screens : List Screen)
    (cfg : FlowsConfig) : Except String (List Flow) :=
  flowScanSessions trace.meta.url (effectiveMinSteps cfg)
    (effectiveMaxDuration cfg) screens trace.sessions []

/-- The pure core of the `flows` stage (flows.ts:225-230): run
`extractScreens`, then `extractFlows` over the same trace. -/
def flowsPipeline (trace : TraceOutput) (cfg : FlowsConfig) :
    Except String (List Screen × List Flow) :=
  match extractScreens trace with
  | Except.error m => Except.error m
  | Except.ok screens =>
    match extractFlows trace screens cfg with
    | Except.error m => Except.error m
    | Except.ok flowList => Except.ok (screens, flowList)

/-- The flow list computed by the `flows` stage (labels aside, the flow
output does not depend on the screens' accumulated actions). -/
def flowsOf (trace : TraceOutput) (cfg : FlowsConfig) :
    Except String (List Flow) :=
  match flowsPipeline trace cfg with
  | Except.error m => Except.error m
  | Except.ok p => Except.ok p.2

/-! ## `functional-entities` types -/

structure EntityField where
  name : String
  type : String
  required : Bool
  source : String
  constraints : Option (List String) := none
  enum : Option (List String) := none
  deriving Repr, DecidableEq

structure EntityOperation where
  kind : String
  method : String
  path : String
  deriving Repr, DecidableEq

structure EntityTimestamps where
  createdAt : Option String := none
  updatedAt : Option String := none
  deriving Repr, DecidableEq

structure EntityMetadata where
  baseUrl : Option String := none
  primaryKey : Option String := none
  timestamps : Option EntityTimestamps := none
  deriving Repr, DecidableEq

structure Entity where
  name : String
  label : String
  fields : List EntityField
  operations : List EntityOperation
  metadata : Option EntityMetadata := none
  deriving Repr, DecidableEq

/-! ## `functional-entities/src/entities.ts` -/

/-- Remove a trailing `:\w+` (model of `replace(/:\w+$/, '')`,
entities.ts:42): drop from the leftmost `':'` that is followed only by at
least one word character to the end of the string. -/
def dropColonIdSuffix : List Char → List Char
  | [] => []
  | c :: rest =>
    if c = ':' && !rest.isEmpty && rest.all isWordChar then []
    else c :: dropColonIdSuffix rest

/-- Remove a trailing `\{\w+\}` (model of `replace(/\{\w+\}$/, '')`,
entities.ts:43): drop from the leftmost `'\x7b'` such that the remainder is
word characters followed by a final `'\x7d'`. -/
def dropBraceIdSuffix : List Char → List Char
  | [] => []
  | c :: rest =>
    if c = '{' && rest.length ≥ 2 && rest.dropLast.length ≥ 1 &&
        rest.dropLast.all isWordChar && rest.getLast? = some '}' then []
    else c :: dropBraceIdSuffix rest

/-- The suffix-based singularization heuristic (entities.ts:46-52). -/
def singularize (l : List Char) : List Char :=
  if leadsWith ['s', 'e', 'i'] l.reverse then l.dropLast.dropLast.dropLast ++ ['y']
  else if leadsWith ['s', 'e', 's'] l.reverse then l.dropLast.dropLast
  else if leadsWith ['s'] l.reverse && !leadsWith ['s', 's'] l.reverse then l.dropLast
  else l

/-- Embedding of `extractEntityName` (entities.ts:24-62).  The TS function returns
`string | null` but the `null` branches are unreachable; the caller treats
the empty string as falsy and skips the event. -/
def extractEntityName (urlPath : String) : String :=
  let clean := dropVersionGroup (dropApiGroup
    (dropOneTrail '/' (dropOneLead '/' urlPath.toList)))
  let parts := splitOnChar '/' clean
  let resourceName := match parts with
    | [] => []
    | p :: _ => p
  let resourceName := dropBraceIdSuffix (dropColonIdSuffix resourceName)
  let resourceName := singularize resourceName
  String.join (((splitRuns (fun c => c = '-' || c = '_') resourceName).map
    capHeadLowerRest).map List.asString)
where
  /-- Model of `replace(/^api\//, '')`. -/
  dropApiGroup (l : List Char) : List Char :=
    if leadsWith ['a', 'p', 'i', '/'] l then l.drop 4 else l
  /-- Model of `replace(/^v\d+\//, '')`. -/
  dropVersionGroup (l : List Char) : List Char :=
    match l with
    | 'v' :: rest =>
      let digits := rest.takeWhile Char.isDigit
      if !digits.isEmpty && (rest.drop digits.length).head? = some '/' then
        rest.drop (digits.length + 1)
      else l
    | _ => l

/-- Model of `replace(/\/\d+/g, '/:id')` (entities.ts:174): each `'/'` followed by a
maximal non-empty digit run is rewritten to `/:id`; the boolean flag marks
a digit run currently being consumed. -/
def replaceNumericIds : List Char → Bool → List Char
  | [], _ => []
  | c :: rest, inRun =>
    if inRun && c.isDigit then replaceNumericIds rest true
    else if c = '/' && (match rest with | d :: _ => d.isDigit | [] => false) then
      '/' :: ':' :: 'i' :: 'd' :: replaceNumericIds rest true
    else c :: replaceNumericIds rest false

/-- Case-insensitive hex digit (`[0-9a-f]` under the `i` flag). -/
def isHexChar (c : Char) : Bool :=
  c.isDigit || ('a' ≤ c && c ≤ 'f') || ('A' ≤ c && c ≤ 'F')

/-- Consume exactly `n` hex characters. -/
def hexRun : Nat → List Char → Option (List Char)
  | 0, l => some l
  | _ + 1, [] => none
  | n + 1, c :: rest => if isHexChar c then hexRun n rest else none

/-- Consume a literal `'-'`. -/
def dashThen : List Char → Option (List Char)
  | '-' :: rest => some rest
  | _ => none

/-- Does `l` start with the 36-character `8-4-4-4-12` hex pattern of the
UUID regex (entities.ts:177-180)? -/
def uuidAt (l : List Char) : Bool :=
  (do
    let r ← hexRun 8 l
    let r ← dashThen r
    let r ← hexRun 4 r
    let r ← dashThen r
    let r ← hexRun 4 r
    let r ← dashThen r
    let r ← hexRun 4 r
    let r ← dashThen r
    hexRun 12 r).isSome

/-- Model of `replace(/\/[0-9a-f]{8}-..-[0-9a-f]{12}/gi, '/:id')`, fuel-indexed so
the recursion is structural (`fuel = length` always suffices). -/
def replaceUuidIdsAux : Nat → List Char → List Char
  | 0, l => l
  | _ + 1, [] => []
  | fuel + 1, c :: rest =>
    if c = '/' && uuidAt rest then
      '/' :: ':' :: 'i' :: 'd' :: replaceUuidIdsAux fuel (rest.drop 36)
    else c :: replaceUuidIdsAux fuel rest

def replaceUuidIds (l : List Char) : List Char :=
  replaceUuidIdsAux l.length l

/-- Embedding of `normalizeUrlPath` (entities.ts:168-186): resolve against
`http://example.com`, then rewrite numeric and UUID path segments to
`/:id`; if the URL constructor throws, the input is returned unchanged. -/
def normalizeUrlPath (path : String) : String :=
  match parseUrlWithBase path with
  | none => path
  | some u =>
    (replaceUuidIds (replaceNumericIds u.pathname.toList false)).asString

/-- Embedding of `inferOperationKind` (entities.ts:147-163). -/
def inferOperationKind (method : String) (path : String) : String :=
  let hasId := containsSub path.toList ['/', ':'] ||
    containsSub path.toList ['/', '{'] || slashDigit path.toList
  if method = "GET" then (if hasId then "read" else "list")
  else if method = "POST" then "create"
  else if method = "PUT" || method = "PATCH" then "update"
  else if method = "DELETE" then "delete"
  else "list"
where
  /-- Model of `/\/\d+/.test(path)`. -/
  slashDigit : List Char → Bool
    | [] => false
    | c :: rest =>
      (c = '/' && (match rest with | d :: _ => d.isDigit | [] => false)) ||
        slashDigit rest

/-- Model of `Object.entries(shape)` (entities.ts:112): for an object, its own
key/value pairs; for an array, index/element pairs; for a (boxed) string,
index/character pairs. -/
def shapeEntries : NetworkShape → List (String × NetworkShape)
  | NetworkShape.obj fs => fs
  | NetworkShape.arr xs => xs.enum.map (fun p => (toString p.1, p.2))
  | NetworkShape.prim s =>
    s.toList.enum.map (fun p => (toString p.1, NetworkShape.prim p.2.toString))

/-- Model of `typeof value === 'string' ? value : inferFieldType(value)`
(entities.ts:116): a string shape is cast to a field type verbatim; arrays
and objects go through `inferFieldType` (entities.ts:67-102), whose string
branches are unreachable from this call site. -/
def shapeFieldType : NetworkShape → String
  | NetworkShape.prim s => s
  | NetworkShape.arr _ => "array"
  | NetworkShape.obj _ => "object"

/-- JS truthiness of an optional shape: `undefined` and the empty-string
shape are falsy; arrays and objects are always truthy. -/
def shapeTruthy : Option NetworkShape → Bool
  | none => false
  | some (NetworkShape.prim s) => s ≠ ""
  | some (NetworkShape.arr _) => true
  | some (NetworkShape.obj _) => true

/-- The per-entry body of `extractFieldsFromShape` (entities.ts:112-141):
skip `_`/`$`-prefixed keys; create a new field with `required := false`,
else widen an `unknown` type and mark a field seen under both sources as
`inferred`. -/
def addShapeField (source : String) (fields : List EntityField)
    (kv : String × NetworkShape) : List EntityField :=
  let key := kv.1
  if key.toList.head? = some '_' || key.toList.head? = some '$' then fields
  else
    let fieldType := shapeFieldType kv.2
    if (fields.find? (fun f => f.name = key)).isSome then
      fields.map (fun f =>
        if f.name = key then
          let f := if f.type ≠ fieldType && fieldType ≠ "unknown" &&
              f.type = "unknown" then { f with type := fieldType } else f
          if f.source ≠ source then { f with source := "inferred" } else f
        else f)
    else
      fields ++ [{ name := key, type := fieldType, required := false,
                   source := source }]

/-- Embedding of `extractFieldsFromShape` (entities.ts:107-142), as a fold over
`Object.entries(shape)`. -/
def extractFieldsFromShape (shape : NetworkShape) (source : String)
    (fields : List EntityField) : List EntityField :=
  (shapeEntries shape).foldl (addShapeField source) fields

/-- Per-entity accumulator of the `entities` stage (entities.ts:201-206):
field map, operation map keyed by `"METHOD:path"`, and the first
normalized path seen. -/
structure EntityAcc where
  name : String
  fields : List EntityField
  operations : List (String × EntityOperation)
  baseUrl : String
  deriving Repr, DecidableEq

/-- The per-entity update of the network-event loop (entities.ts:228-251):
merge the event's request/response shape fields and record its operation
under the `"METHOD:path"` dedup key. -/
def updateEntityAcc (e : TraceEvent) (method normalizedPath : String)
    (data : EntityAcc) : EntityAcc :=
  let fields := if shapeTruthy e.requestShape then
      extractFieldsFromShape (e.requestShape.getD (NetworkShape.obj []))
        "request" data.fields
    else data.fields
  let fields := if shapeTruthy e.responseShape then
      extractFieldsFromShape (e.responseShape.getD (NetworkShape.obj []))
        "response" fields
    else fields
  let operationKind := inferOperationKind method normalizedPath
  let operationKey := method ++ ":" ++ normalizedPath
  let operations :=
    if (data.operations.find? (fun q => q.1 = operationKey)).isSome then
      data.operations
    else data.operations ++ [(operationKey,
      { kind := operationKind, method := method, path := normalizedPath })]
  { data with fields := fields, operations := operations }

/-- The body of the network-event loop (entities.ts:210-251).  Non-network
events and events with a falsy `url`/`method` or an empty derived entity
name are skipped. -/
def processNetworkEvent (acc : List (String × EntityAcc)) (e : TraceEvent) :
    List (String × EntityAcc) :=
  if e.type ≠ "network" || !strTruthy e.url || !strTruthy e.method then acc
  else
    let url := e.url.getD ""
    let method := e.method.getD ""
    let normalizedPath := normalizeUrlPath url
    let entityName := extractEntityName normalizedPath
    if entityName = "" then acc
    else
      let acc :=
        if (acc.find? (fun p => p.1 = entityName)).isSome then acc
        else acc ++ [(entityName,
          { name := entityName, fields := [], operations := [],
            baseUrl := normalizedPath })]
      acc.map (fun p =>
        if p.1 = entityName then (p.1, updateEntityAcc e method normalizedPath p.2)
        else p)

/-- The session/event loops of the `entities` stage (entities.ts:209-252). -/
def entityAccs (trace : TraceOutput) : List (String × EntityAcc) :=
  trace.sessions.foldl
    (fun acc s => s.events.foldl processNetworkEvent acc) []

/-- Does the field map contain a field of the given name? -/
def hasFieldNamed (fields : List EntityField) (n : String) : Bool :=
  (fields.find? (fun f => f.name = n)).isSome

/-- One element of the `Array.from(entityMap.entries()).map(...)` step
(entities.ts:255-290): primary-key and timestamp detection plus record
assembly. -/
def finalizeEntity (p : String × EntityAcc) : Entity :=
  let data := p.2
  let primaryKey :=
    if hasFieldNamed data.fields "id" then some "id"
    else if hasFieldNamed data.fields "_id" then some "_id"
    else none
  let createdAt :=
    if hasFieldNamed data.fields "createdAt" then some "createdAt"
    else if hasFieldNamed data.fields "created_at" then some "created_at"
    else none
  let updatedAt :=
    if hasFieldNamed data.fields "updatedAt" then some "updatedAt"
    else if hasFieldNamed data.fields "updated_at" then some "updated_at"
    else none
  { name := p.1, label := p.1,
    fields := data.fields,
    operations := data.operations.map Prod.snd,
    metadata := some
      { baseUrl := some data.baseUrl,
        primaryKey := primaryKey,
        timestamps :=
          if createdAt.isSome || updatedAt.isSome then
            some { createdAt := createdAt, updatedAt := updatedAt }
          else none } }

/-- The pure core of the `entities` stage: the full trace-to-entities
transformation (entities.ts:200-290). -/
def entitiesPipeline (trace : TraceOutput) : List Entity :=
  (entityAccs trace).map finalizeEntity

/-! ## `functional-rules` types -/

structure StateTransition where
  fromState : String        -- `from` in the source (a Lean keyword)
  toState : String          -- `to` in the source
  trigger : String
  conditions : Option (List String) := none
  deriving Repr, DecidableEq

structure StateMachine where
  entity : String
  states : List String
  initial : String
  transitions : List StateTransition
  deriving Repr, DecidableEq

structure ValidationRule where
  entity : String
  field : String
  rule : String
  message : Option String := none
  source : String
  deriving Repr, DecidableEq

structure PermissionRule where
  entity : String
  action : String
  roles : Option (List String) := none
  source : String
  deriving Repr, DecidableEq

structure BusinessRule where
  entity : String
  name : String
  description : String
  condition : String
  action : String
  source : String
  deriving Repr, DecidableEq

/-- The inputs assembled by `loadInputs`: trace, screens+flows, entities. -/
structure RulesInputs where
  trace : TraceOutput
  screens : List Screen
  flows : List Flow
  entities : List Entity
  deriving Repr

/-! ## `functional-rules` extractors (`extractRules.ts`) -/

/-- The status-like field lookup of `extractStateMachines`
(extractRules.ts): first field whose lower-cased name is `status`,
`state`, `phase` or `stage`. -/
def findStateField (fields : List EntityField) : Option EntityField :=
  fields.find? (fun f =>
    jsToLower f.name ∈ (["status", "state", "phase", "stage"] : List String))

/-- Embedding of `inferStatesFromFlows`: collect known lifecycle keywords from the
names of flows mentioning the entity (in first-seen order), falling back
to the default three-state list. -/
def inferStatesFromFlows (entityName : String) (flows : List Flow) :
    List String :=
  let commonStates : List String :=
    ["draft", "pending", "active", "completed", "archived", "deleted"]
  let states := flows.foldl (fun states flow =>
    if containsSub (jsToLower flow.name).toList (jsToLower entityName).toList then
      ((splitRuns (fun c => c.isWhitespace || c = '→' || c = '-')
          flow.name.toList).map List.asString).foldl
        (fun states word =>
          let lower := jsToLower word
          if lower ∈ commonStates then addUnique states lower else states)
        states
    else states) []
  if states.length > 0 then states else ["draft", "active", "archived"]

/-- Insert a transition into the dedup map unless its key is present. -/
def addTransition (tm : List (String × StateTransition)) (key : String)
    (t : StateTransition) : List (String × StateTransition) :=
  if (tm.find? (fun p => p.1 = key)).isSome then tm else tm ++ [(key, t)]

/-- The per-step body of `extractTransitions`' inner loop: a `POST` step
implies `draft→active`, `PATCH`/`PUT` with `archive`/`approve` in the flow
name implies `active→archived`/`pending→active`, and `DELETE` implies a
transition from every non-`deleted` state into `deleted`. -/
def transitionStep (states : List String) (flowLower : String)
    (tm : List (String × StateTransition)) (step : FlowStep) :
    List (String × StateTransition) :=
  if step.type = "network" && strTruthy step.operation then
    let op := (step.operation.getD "")
    let method := (op.toList.takeWhile (fun c => c ≠ ' ')).asString
    let tm :=
      if method = "POST" then
        addTransition tm "draft→active"
          { fromState := "draft", toState := "active",
            trigger := "create_success",
            conditions := some ["POST request succeeded"] }
      else tm
    let tm :=
      if method = "PATCH" || method = "PUT" then
        if containsSub flowLower.toList "archive".toList then
          addTransition tm "active→archived"
            { fromState := "active", toState := "archived", trigger := "archive" }
        else if containsSub flowLower.toList "approve".toList then
          addTransition tm "pending→active"
            { fromState := "pending", toState := "active", trigger := "approve" }
        else tm
      else tm
    if method = "DELETE" then
      states.foldl (fun tm state =>
        if state ≠ "deleted" then
          addTransition tm (state ++ "→deleted")
            { fromState := state, toState := "deleted", trigger := "delete" }
        else tm) tm
    else tm
  else tm

/-- Embedding of `extractTransitions`: for each flow mentioning the entity, scan its
steps with index `i < steps.length - 1` — i.e. every step except the last
(`nextStep` is read but never used in the source). -/
def extractTransitions (entityName : String) (states : List String)
    (flows : List Flow) : List StateTransition :=
  (flows.foldl (fun tm flow =>
    if !containsSub (jsToLower flow.name).toList (jsToLower entityName).toList
    then tm
    else flow.steps.dropLast.foldl
      (transitionStep states (jsToLower flow.name)) tm) []).map Prod.snd

/-- Embedding of `extractStateMachines`: one machine per entity with a status-like
field; states come from the field's `enum` when present (a present empty
enum is truthy in JS and yields no machine via the length check). -/
def extractStateMachines (inputs : RulesInputs) : List StateMachine :=
  inputs.entities.foldl (fun machines entity =>
    match findStateField entity.fields with
    | none => machines
    | some stateField =>
      let states := match stateField.enum with
        | some es => es
        | none => inferStatesFromFlows entity.name inputs.flows
      if states.length = 0 then machines
      else
        let initial :=
          match states.find? (fun s =>
            jsToLower s ∈ (["draft", "pending", "new", "created", "initial"] :
              List String)) with
          | some s => s
          | none => states.headD ""
        machines ++
          [{ entity := entity.name, states := states, initial := initial,
             transitions := extractTransitions entity.name states inputs.flows }])
    []

/-- The per-field body of `extractValidationRules`. -/
def fieldValidationRules (entityName : String) (field : EntityField) :
    List ValidationRule :=
  let rules : List ValidationRule :=
    if field.required ||
        jsToLower field.name ∈ (["id", "name", "email"] : List String) then
      [{ entity := entityName, field := field.name, rule := "required",
         message := some (field.name ++ " is required"),
         source := if field.required then "inferred" else "heuristic" }]
    else []
  let rules := rules ++
    (if field.type = "string" then
      (if containsSub (jsToLower field.name).toList "email".toList then
        [{ entity := entityName, field := field.name, rule := "email",
           message := some (field.name ++ " must be a valid email address"),
           source := "heuristic" }]
      else []) ++
      [{ entity := entityName, field := field.name, rule := "max:500",
         message := some (field.name ++ " must not exceed 500 characters"),
         source := "heuristic" }]
    else [])
  let rules := rules ++
    (if field.type = "number" then
      [{ entity := entityName, field := field.name, rule := "min:0",
         message := some (field.name ++ " must be at least 0"),
         source := "heuristic" }]
    else [])
  rules ++
    (match field.constraints with
    | some cs => cs.map (fun c =>
        { entity := entityName, field := field.name, rule := c,
          message := none, source := "inferred" })
    | none => [])

/-- Embedding of `extractValidationRules`. -/
def extractValidationRules (inputs : RulesInputs) : List ValidationRule :=
  inputs.entities.foldl (fun rules entity =>
    entity.fields.foldl (fun rules field =>
      rules ++ fieldValidationRules entity.name field) rules) []

/-- Embedding of `extractPermissionRules`. -/
def extractPermissionRules (inputs : RulesInputs) : List PermissionRule :=
  inputs.entities.foldl (fun rules entity =>
    let rules := rules ++
      (if entity.operations.any (fun op => op.kind = "create") then
        [{ entity := entity.name, action := "create",
           roles := some ["authenticated"], source := "heuristic" }]
      else []) ++
      (if entity.operations.any (fun op => op.kind = "update") then
        [{ entity := entity.name, action := "update",
           roles := some ["owner", "admin"], source := "heuristic" }]
      else []) ++
      (if entity.operations.any (fun op => op.kind = "delete") then
        [{ entity := entity.name, action := "delete",
           roles := some ["admin"], source := "heuristic" }]
      else [])
    inputs.flows.foldl (fun rules flow =>
      let flowLower := jsToLower flow.name
      if containsSub flowLower.toList (jsToLower entity.name).toList then
        rules ++
          (if containsSub flowLower.toList "approve".toList then
            [{ entity := entity.name, action := "approve",
               roles := some ["manager", "admin"], source := "inferred" }]
          else []) ++
          (if containsSub flowLower.toList "archive".toList then
            [{ entity := entity.name, action := "archive",
               roles := some ["owner", "admin"], source := "inferred" }]
          else [])
      else rules) rules) []

/-- Embedding of `extractBusinessRules`: note the workflow check tests the lower-cased
field name against `status`/`state` only (not `phase`/`stage` as the
state-machine extractor does). -/
def extractBusinessRules (inputs : RulesInputs) : List BusinessRule :=
  inputs.entities.foldl (fun rules entity =>
    let rules :=
      if entity.fields.any (fun f =>
          jsToLower f.name ∈ (["status", "state"] : List String)) then
        rules ++
          [{ entity := entity.name, name := "workflow_progression",
             description := entity.name ++ " must follow defined workflow states",
             condition := "state transition requested",
             action := "validate transition is allowed",
             source := "inferred" }]
      else rules
    match entity.metadata with
    | some md =>
      match md.timestamps with
      | some _ =>
        rules ++
          [{ entity := entity.name, name := "timestamp_immutability",
             description := "Creation timestamp cannot be modified",
             condition := "update request includes createdAt",
             action := "reject update",
             source := "heuristic" }]
      | none => rules
    | none => rules) []

/-! ## Stage wrappers (file I/O model)

Each stage reads input files with `fs.readFileSync` + `JSON.parse` inside
a `try`, and on any thrown error returns a `success: false` result with
the message in `errors` without writing anything.  A file on disk is
modelled by its decoding outcome: `none` = the file is missing
(`readFileSync` throws `ENOENT`), `some (.error m)` = present but
`JSON.parse` throws `m`, `some (.ok v)` = present and parses to `v`. -/

/-- The `ENOENT` message thrown by `fs.readFileSync` for a missing file. -/
def enoentMsg (path : String) : String :=
  "ENOENT: no such file or directory, open '" ++ path ++ "'"

/-- Model of `JSON.parse(fs.readFileSync(path, 'utf-8'))` over the file model. -/
def readJsonFile {α : Type} (file : Option (Except String α)) (path : String) :
    Except String α :=
  match file with
  | none => Except.error (enoentMsg path)
  | some (Except.error m) => Except.error m
  | some (Except.ok v) => Except.ok v

/-- A file written by a stage (`fs.writeFileSync` of the JSON output). -/
inductive WrittenFile where
  | screensFile (screens : List Screen)
  | flowsFile (flows : List Flow)
  | entitiesFile (entities : List Entity)
    (metadata : Option (String × Nat × Nat))
  | rulesFile (stateMachines : List StateMachine)
    (validationRules : List ValidationRule)
    (permissionRules : List PermissionRule)
    (businessRules : List BusinessRule)
    (metadata : Option (String × Nat × Nat × Nat × Nat))
  deriving Repr

structure FlowsResult where
  success : Bool
  screensPath : String
  flowsPath : String
  screensFound : Nat
  flowsFound : Nat
  errors : Option (List String) := none
  deriving Repr, DecidableEq

/-- The failure result of the `flows` stage's `catch` block. -/
def flowsFailResult (cfg : FlowsConfig) (m : String) : FlowsResult :=
  { success := false, screensPath := cfg.outScreens, flowsPath := cfg.outFlows,
    screensFound := 0, flowsFound := 0, errors := some [m] }

/-- The `flows` stage (flows.ts:214-281). -/
def flowsStage (traceFile : Option (Except String TraceOutput))
    (cfg : FlowsConfig) : FlowsResult × List (String × WrittenFile) :=
  match readJsonFile traceFile cfg.tracePath with
  | Except.error m => (flowsFailResult cfg m, [])
  | Except.ok trace =>
    match flowsPipeline trace cfg with
    | Except.error m => (flowsFailResult cfg m, [])
    | Except.ok (screens, flowList) =>
      ({ success := true, screensPath := cfg.outScreens,
         flowsPath := cfg.outFlows, screensFound := screens.length,
         flowsFound := flowList.length },
       [(cfg.outScreens, WrittenFile.screensFile screens),
        (cfg.outFlows, WrittenFile.flowsFile flowList)])

structure EntitiesConfig where
  tracePath : String := "trace.json"
  out : String := "entities.json"
  includeMetadata : Option Bool := none
  deriving Repr, DecidableEq

structure EntitiesResult where
  success : Bool
  outputPath : String
  entitiesFound : Nat
  operationsFound : Nat
  errors : Option (List String) := none
  deriving Repr, DecidableEq

/-- The `entities` stage (entities.ts:191-332); `now` is the
`new Date().toISOString()` value sampled for `metadata.extractedAt`. -/
def entitiesStage (traceFile : Option (Except String TraceOutput))
    (cfg : EntitiesConfig) (now : String) :
    EntitiesResult × List (String × WrittenFile) :=
  match readJsonFile traceFile cfg.tracePath with
  | Except.error m =>
    ({ success := false, outputPath := cfg.out, entitiesFound := 0,
       operationsFound := 0, errors := some [m] }, [])
  | Except.ok trace =>
    let entitiesArray := entitiesPipeline trace
    let totalOperations :=
      entitiesArray.foldl (fun sum e => sum + e.operations.length) 0
    let metadata :=
      if cfg.includeMetadata ≠ some false then
        some (now, entitiesArray.length, totalOperations)
      else none
    ({ success := true, outputPath := cfg.out,
       entitiesFound := entitiesArray.length,
       operationsFound := match metadata with
         | some md => md.2.2
         | none => 0 },
     [(cfg.out, WrittenFile.entitiesFile entitiesArray metadata)])

/-- The decoded contents of the flows input of the rules stage
(`flowsData.screens || []`, `flowsData.flows || []`). -/
structure FlowsFileData where
  screens : Option (List Screen) := none
  flows : Option (List Flow) := none

/-- The decoded contents of the entities input of the rules stage. -/
structure EntitiesFileData where
  entities : Option (List Entity) := none

structure RulesConfig where
  tracePath : String := "trace.json"
  flowsPath : String := "flows.json"
  entitiesPath : String := "entities.json"
  out : String := "rules.json"
  includeMetadata : Option Bool := none
  deriving Repr, DecidableEq

structure RulesResult where
  success : Bool
  outputPath : String
  stateMachinesFound : Nat
  validationRulesFound : Nat
  permissionRulesFound : Nat
  businessRulesFound : Nat
  errors : Option (List String) := none
  deriving Repr, DecidableEq

/-- Embedding of `loadInputs` (extractRules.ts): read the trace, flows and entities
files in order, defaulting absent `screens`/`flows`/`entities` keys. -/
def loadInputs (traceFile : Option (Except String TraceOutput))
    (flowsFile : Option (Except String FlowsFileData))
    (entitiesFile : Option (Except String EntitiesFileData))
    (cfg : RulesConfig) : Except String RulesInputs :=
  match readJsonFile traceFile cfg.tracePath with
  | Except.error m => Except.error m
  | Except.ok trace =>
    match readJsonFile flowsFile cfg.flowsPath with
    | Except.error m => Except.error m
    | Except.ok flowsData =>
      match readJsonFile entitiesFile cfg.entitiesPath with
      | Except.error m => Except.error m
      | Except.ok entitiesData =>
        Except.ok { trace := trace,
                    screens := flowsData.screens.getD [],
                    flows := flowsData.flows.getD [],
                    entities := entitiesData.entities.getD [] }

/-- The `extractRules` stage (extractRules.ts). -/
def extractRulesStage (traceFile : Option (Except String TraceOutput))
    (flowsFile : Option (Except String FlowsFileData))
    (entitiesFile : Option (Except String EntitiesFileData))
    (cfg : RulesConfig) (now : String) :
    RulesResult × List (String × WrittenFile) :=
  match loadInputs traceFile flowsFile entitiesFile cfg with
  | Except.error m =>
    ({ success := false, outputPath := cfg.out, stateMachinesFound := 0,
       validationRulesFound := 0, permissionRulesFound := 0,
       businessRulesFound := 0, errors := some [m] }, [])
  | Except.ok inputs =>
    let stateMachines := extractStateMachines inputs
    let validationRules := extractValidationRules inputs
    let permissionRules := extractPermissionRules inputs
    let businessRules := extractBusinessRules inputs
    let metadata :=
      if cfg.includeMetadata ≠ some false then
        some (now, stateMachines.length, validationRules.length,
          permissionRules.length, businessRules.length)
      else none
    ({ success := true, outputPath := cfg.out,
       stateMachinesFound := stateMachines.length,
       validationRulesFound := validationRules.length,
       permissionRulesFound := permissionRules.length,
       businessRulesFound := businessRules.length },
     [(cfg.out, WrittenFile.rulesFile stateMachines validationRules
        permissionRules businessRules metadata)])

/-! ## Projections used by the determinism claim -/

/-- The entity arrays contained in a stage's written files. -/
def writtenEntityArrays (w : List (String × WrittenFile)) : List (List Entity) :=
  w.filterMap (fun p => match p.2 with
    | WrittenFile.entitiesFile es _ => some es
    | _ => none)

/-- The `(totalEntities, totalOperations)` counters of written entities
files (everything in their metadata except `extractedAt`). -/
def writtenEntityTotals (w : List (String × WrittenFile)) :
    List (Option (Nat × Nat)) :=
  w.filterMap (fun p => match p.2 with
    | WrittenFile.entitiesFile _ md => some (md.map (fun m => (m.2.1, m.2.2)))
    | _ => none)

/-- The message with which reading-and-parsing the modelled file fails. -/
def readFailMsg (file : Option (Except String TraceOutput)) (path : String) :
    String :=
  match file with
  | none => enoentMsg path
  | some (Except.error m) => m
  | some (Except.ok _) => ""

/-- All network events of a trace, across sessions, in processing order. -/
def networkEvents (trace : TraceOutput) : List TraceEvent :=
  (trace.sessions.flatMap (fun s => s.events)).filter
    (fun e => decide (e.type = "network"))

/-! ## Helper lemmas -/

theorem mem_addUnique {x a : String} {pa : List String} :
    x ∈ addUnique pa a ↔ x ∈ pa ∨ x = a := by
  unfold addUnique
  by_cases h : a ∈ pa
  · simp only [if_pos h]
    constructor
    · exact Or.inl
    · rintro (hx | rfl)
      · exact hx
      · exact h
  · simp [if_neg h, List.mem_append]

theorem nodup_addUnique {a : String} {pa : List String} (h : pa.Nodup) :
    (addUnique pa a).Nodup := by
  unfold addUnique
  by_cases hm : a ∈ pa
  · simpa [if_pos hm]
  · simpa [if_neg hm, ← List.concat_eq_append] using h.concat hm

theorem mem_addActions_left {x : String} {pa acts : List String}
    (h : x ∈ pa) : x ∈ addActions pa acts := by
  induction acts generalizing pa with
  | nil => exact h
  | cons a rest ih => exact ih (mem_addUnique.mpr (Or.inl h))

theorem mem_addActions_right {x : String} {pa acts : List String}
    (h : x ∈ acts) : x ∈ addActions pa acts := by
  induction acts generalizing pa with
  | nil => cases h
  | cons a rest ih =>
    have hstep : addActions pa (a :: rest) = addActions (addUnique pa a) rest := rfl
    rcases List.mem_cons.mp h with rfl | hx
    · rw [hstep]
      exact mem_addActions_left (mem_addUnique.mpr (Or.inr rfl))
    · rw [hstep]
      exact ih hx

theorem nodup_addActions {pa acts : List String} (h : pa.Nodup) :
    (addActions pa acts).Nodup := by
  induction acts generalizing pa with
  | nil => exact h
  | cons a rest ih => exact ih (nodup_addUnique h)

theorem ensureScreen_mem {screens scr : List Screen} {cu sid : String}
    (h : ensureScreen screens cu sid = Except.ok scr) {s : Screen}
    (hs : s ∈ screens) : s ∈ scr := by
  unfold ensureScreen at h
  by_cases hf : (screens.find? (fun s => s.id = sid)).isSome
  · simp only [if_pos hf] at h
    cases h
    exact hs
  · simp only [if_neg hf] at h
    cases hp : parseUrl cu with
    | none => rw [hp] at h; cases h
    | some u =>
      rw [hp] at h
      cases h
      exact List.mem_append_left _ hs

theorem ensureScreen_target {screens scr : List Screen} {cu sid : String}
    (h : ensureScreen screens cu sid = Except.ok scr) :
    ∃ s ∈ scr, s.id = sid := by
  unfold ensureScreen at h
  by_cases hf : (screens.find? (fun s => s.id = sid)).isSome
  · simp only [if_pos hf] at h
    cases h
    rcases Option.isSome_iff_exists.mp hf with ⟨s, hs⟩
    exact ⟨s, List.mem_of_find?_eq_some hs, by simpa using List.find?_some hs⟩
  · simp only [if_neg hf] at h
    cases hp : parseUrl cu with
    | none => rw [hp] at h; cases h
    | some u =>
      rw [hp] at h
      cases h
      exact ⟨_, List.mem_append_right _ (List.mem_singleton_self _), rfl⟩

theorem ensureScreen_src {screens scr : List Screen} {cu sid : String}
    (h : ensureScreen screens cu sid = Except.ok scr) {s : Screen}
    (hs : s ∈ scr) : s ∈ screens ∨ s.primaryActions = [] := by
  unfold ensureScreen at h
  by_cases hf : (screens.find? (fun s => s.id = sid)).isSome
  · simp only [if_pos hf] at h
    cases h
    exact Or.inl hs
  · simp only [if_neg hf] at h
    cases hp : parseUrl cu with
    | none => rw [hp] at h; cases h
    | some u =>
      rw [hp] at h
      cases h
      rcases List.mem_append.mp hs with hs | hs
      · exact Or.inl hs
      · rcases List.mem_singleton.mp hs with rfl
        exact Or.inr rfl

theorem attributeActions_src {screens : List Screen} {sid : String}
    {acts : List String} {s : Screen}
    (hs : s ∈ attributeActions screens sid acts) :
    ∃ s₀ ∈ screens, s.id = s₀.id ∧
      (s.primaryActions = s₀.primaryActions ∨
        s.primaryActions = addActions s₀.primaryActions acts) := by
  rcases List.mem_map.mp hs with ⟨s₀, hs₀, rfl⟩
  by_cases h : s₀.id = sid
  · exact ⟨s₀, hs₀, by simp [if_pos h], by simp [if_pos h]⟩
  · exact ⟨s₀, hs₀, by simp [if_neg h], by simp [if_neg h]⟩

theorem attributeActions_keeps {screens : List Screen} {sid : String}
    {acts : List String} {s : Screen} (hs : s ∈ screens) :
    ∃ s' ∈ attributeActions screens sid acts, s'.id = s.id ∧
      ∀ a ∈ s.primaryActions, a ∈ s'.primaryActions := by
  by_cases h : s.id = sid
  · refine ⟨{ s with primaryActions := addActions s.primaryActions acts },
      List.mem_map.mpr ⟨s, hs, by simp [attributeActions, if_pos h]⟩, rfl,
      fun a ha => mem_addActions_left ha⟩
  · exact ⟨s, List.mem_map.mpr ⟨s, hs, by simp [attributeActions, if_neg h]⟩,
      rfl, fun a ha => ha⟩

theorem attributeActions_adds {screens : List Screen} {sid : String}
    {acts : List String} {s : Screen} (hs : s ∈ screens) (hid : s.id = sid) :
    ∃ s' ∈ attributeActions screens sid acts, s'.id = sid ∧
      ∀ a ∈ acts, a ∈ s'.primaryActions := by
  refine ⟨{ s with primaryActions := addActions s.primaryActions acts },
    List.mem_map.mpr ⟨s, hs, by simp [attributeActions, if_pos hid]⟩, hid,
    fun a ha => mem_addActions_right ha⟩

/-- Every screen in the output of one event step has duplicate-free
actions if every input screen does. -/
theorem screenStep_nodup {st : ScreenScanState} {e : TraceEvent}
    {st' : ScreenScanState}
    (h : screenStep st e = Except.ok st')
    (hinv : ∀ s ∈ st.screens, s.primaryActions.Nodup) :
    ∀ s ∈ st'.screens, s.primaryActions.Nodup := by
  unfold screenStep at h
  by_cases hcu : navTarget st.currentUrl e ≠ ""
  · simp only [if_pos hcu] at h
    cases hes : ensureScreen st.screens (navTarget st.currentUrl e)
        (generateScreenId (navTarget st.currentUrl e)) with
    | error m => rw [hes] at h; cases h
    | ok scr =>
      rw [hes] at h
      cases h
      intro s hs
      rcases attributeActions_src hs with ⟨s₀, hs₀, _, hpa | hpa⟩
      · rw [hpa]
        rcases ensureScreen_src hes hs₀ with h₀ | h₀
        · exact hinv s₀ h₀
        · rw [h₀]; exact List.nodup_nil
      · rw [hpa]
        rcases ensureScreen_src hes hs₀ with h₀ | h₀
        · exact nodup_addActions (hinv s₀ h₀)
        · rw [h₀]; exact nodup_addActions List.nodup_nil
  · simp only [if_neg hcu] at h
    cases h
    exact hinv

/-- After one event step, every input screen is still present (same id)
with all its previously attributed actions. -/
theorem screenStep_keeps {st : ScreenScanState} {e : TraceEvent}
    {st' : ScreenScanState}
    (h : screenStep st e = Except.ok st') {s : Screen} (hs : s ∈ st.screens) :
    ∃ s' ∈ st'.screens, s'.id = s.id ∧
      ∀ a ∈ s.primaryActions, a ∈ s'.primaryActions := by
  unfold screenStep at h
  by_cases hcu : navTarget st.currentUrl e ≠ ""
  · simp only [if_pos hcu] at h
    cases hes : ensureScreen st.screens (navTarget st.currentUrl e)
        (generateScreenId (navTarget st.currentUrl e)) with
    | error m => rw [hes] at h; cases h
    | ok scr =>
      rw [hes] at h
      cases h
      exact attributeActions_keeps (ensureScreen_mem hes hs)
  · simp only [if_neg hcu] at h
    cases h
    exact ⟨s, hs, rfl, fun a ha => ha⟩

/-- At a click event with a truthy current URL, the step attributes the
click's id to the screen generated from the current URL. -/
theorem screenStep_click {st : ScreenScanState} {e : TraceEvent}
    {st' : ScreenScanState}
    (h : screenStep st e = Except.ok st') (hty : e.type = "click")
    (hcu : st.currentUrl ≠ "") :
    ∃ s ∈ st'.screens, s.id = generateScreenId st.currentUrl ∧
      e.id ∈ s.primaryActions := by
  have hnav : navTarget st.currentUrl e = st.currentUrl := by
    unfold navTarget
    cases e.toUrl with
    | none => rfl
    | some u => simp [hty]
  unfold screenStep at h
  rw [hnav] at h
  simp only [if_pos hcu] at h
  cases hes : ensureScreen st.screens st.currentUrl
      (generateScreenId st.currentUrl) with
  | error m => rw [hes] at h; cases h
  | ok scr =>
    rw [hes] at h
    have hacts : (if e.type = "click" && st.currentUrl ≠ "" then
        st.actions ++ [e.id] else st.actions) = st.actions ++ [e.id] := by
      simp [hty, hcu]
    rw [hacts] at h
    cases h
    rcases ensureScreen_target hes with ⟨s₀, hs₀, hid₀⟩
    rcases attributeActions_adds hs₀ hid₀ with ⟨s', hs', hid', hall⟩
    exact ⟨s', hs', hid', hall _ (List.mem_append_right _ (List.mem_singleton_self _))⟩

/-- At any event with a truthy current URL, every action id accumulated
earlier in the session is attributed to the then-current screen as well:
the session's `actions` list is never cleared. -/
theorem screenStep_leaks {st : ScreenScanState} {e : TraceEvent}
    {st' : ScreenScanState}
    (h : screenStep st e = Except.ok st')
    (hcu : navTarget st.currentUrl e ≠ "") :
    ∀ a ∈ st.actions, ∃ s ∈ st'.screens,
      s.id = generateScreenId (navTarget st.currentUrl e) ∧
        a ∈ s.primaryActions := by
  intro a ha
  unfold screenStep at h
  simp only [if_pos hcu] at h
  cases hes : ensureScreen st.screens (navTarget st.currentUrl e)
      (generateScreenId (navTarget st.currentUrl e)) with
  | error m => rw [hes] at h; cases h
  | ok scr =>
    rw [hes] at h
    cases h
    rcases ensureScreen_target hes with ⟨s₀, hs₀, hid₀⟩
    rcases attributeActions_adds hs₀ hid₀ with ⟨s', hs', hid', hall⟩
    refine ⟨s', hs', hid', hall a ?_⟩
    by_cases hcl : e.type = "click" && navTarget st.currentUrl e ≠ ""
    · simp only [if_pos hcl]
      exact List.mem_append_left _ ha
    · simp only [if_neg hcl]
      exact ha

/-- Nodup invariant through a whole session's events. -/
theorem screenScanEvents_nodup {events : List TraceEvent}
    {st st' : ScreenScanState}
    (h : screenScanEvents events st = Except.ok st')
    (hinv : ∀ s ∈ st.screens, s.primaryActions.Nodup) :
    ∀ s ∈ st'.screens, s.primaryActions.Nodup := by
  induction events generalizing st with
  | nil =>
    unfold screenScanEvents at h
    cases h
    exact hinv
  | cons e rest ih =>
    unfold screenScanEvents at h
    cases hstep : screenStep st e with
    | error m => rw [hstep] at h; cases h
    | ok st₁ =>
      rw [hstep] at h
      exact ih h (screenStep_nodup hstep hinv)

/-- Nodup invariant through all sessions. -/
theorem screenScanSessions_nodup {metaUrl : String}
    {sessions : List TraceSession} {screens scr : List Screen}
    (h : screenScanSessions metaUrl sessions screens = Except.ok scr)
    (hinv : ∀ s ∈ screens, s.primaryActions.Nodup) :
    ∀ s ∈ scr, s.primaryActions.Nodup := by
  induction sessions generalizing screens with
  | nil =>
    unfold screenScanSessions at h
    cases h
    exact hinv
  | cons sess rest ih =>
    unfold screenScanSessions at h
    cases hscan : screenScanEvents sess.events
        { currentUrl := metaUrl, actions := [], screens := screens } with
    | error m => rw [hscan] at h; cases h
    | ok st =>
      rw [hscan] at h
      exact ih h (screenScanEvents_nodup hscan hinv)

/-! ## Concrete inputs used by the claims -/

def clickEvent (i : String) (sel : Option String) (t : Int) : TraceEvent :=
  { id := i, type := "click", timestamp := t, selector := sel }

def navEvent (i : String) (t : Int) (dest : String) : TraceEvent :=
  { id := i, type := "navigate", timestamp := t, toUrl := some dest }

def networkEvent (i : String) (t : Int) (m u : String)
    (rq rs : Option NetworkShape := none) : TraceEvent :=
  { id := i, type := "network", timestamp := t, method := some m,
    url := some u, requestShape := rq, responseShape := rs }

/-- A single-session trace rooted at `rootUrl`. -/
def sessionTrace (rootUrl : String) (t0 : Int) (events : List TraceEvent) :
    TraceOutput :=
  { meta := { url := rootUrl },
    sessions := [{ id := "s1", startTime := t0, events := events }] }

def clickStep (sel : Option String) (d : Int) : FlowStep :=
  { type := "click", screen := "screen-landing", duration := d, action := sel }

def navToWorkspacesStep (d : Int) : FlowStep :=
  { type := "navigate", screen := "screen-landing", duration := d }

def landingToWorkspacesFlow (steps : List FlowStep) (dur : Int) : Flow :=
  { id := "flow-1", name := "Landing Page → Workspaces",
    fromScreen := "screen-landing", toScreen := "screen-workspaces",
    steps := steps, avgDuration := dur }

/-- The one-click session of claim C1's second half. -/
def c1OneClickTrace : TraceOutput :=
  sessionTrace "https://app.example.com/" 0
    [clickEvent "c1" (some "#btn") 10,
     navEvent "n1" 200 "https://app.example.com/workspaces"]

/-! ## Claim C1 -/

/-- Claim C1 as stated is false: in a session with exactly one click
followed by the `/` → `/workspaces` navigation, the Flow Assembler emits
one flow (the navigation step itself counts towards `minStepsForFlow`),
not zero. -/
theorem flowAssembler_one_click_counterexample :
    flowsOf c1OneClickTrace {} ≠ Except.ok ([] : List Flow) ∧
    flowsOf c1OneClickTrace {} = Except.ok
      [landingToWorkspacesFlow [clickStep (some "#btn") 0,
        navToWorkspacesStep 190] 200] := by
  constructor
  · rw [show flowsOf c1OneClickTrace {} = Except.ok
      [landingToWorkspacesFlow [clickStep (some "#btn") 0,
        navToWorkspacesStep 190] 200] from rfl]
    simp
  · rfl

/-- Claim C1 (amended): for a session of clicks followed by one
`/` → `/workspaces` navigation within `maxFlowDuration`, the Flow
Assembler emits exactly one flow whose steps are the click steps plus the
triggering navigation step — with two clicks *and also with one click*
(the navigation step itself counts towards the default
`minStepsForFlow = 2`); only with zero clicks is no flow emitted. -/
theorem flowAssembler_navigation_flow_emission
    (i1 i2 i3 : String) (s1 s2 : Option String) (t0 t1 t2 t3 : Int)
    (hdur : t3 - t0 ≤ 300000) (hne : i1 ≠ i2) :
    flowsOf (sessionTrace "https://app.example.com/" t0
        [clickEvent i1 s1 t1, clickEvent i2 s2 t2,
         navEvent i3 t3 "https://app.example.com/workspaces"]) {} =
      Except.ok [landingToWorkspacesFlow
        [clickStep s1 0, clickStep s2 (t2 - t1), navToWorkspacesStep (t3 - t2)]
        (t3 - t0)] ∧
    flowsOf (sessionTrace "https://app.example.com/" t0
        [clickEvent i1 s1 t1,
         navEvent i3 t3 "https://app.example.com/workspaces"]) {} =
      Except.ok [landingToWorkspacesFlow
        [clickStep s1 0, navToWorkspacesStep (t3 - t1)] (t3 - t0)] ∧
    flowsOf (sessionTrace "https://app.example.com/" t0
        [navEvent i3 t3 "https://app.example.com/workspaces"]) {} =
      Except.ok [] := by
  have hid1 : generateScreenId "https://app.example.com/" = "screen-landing" := rfl
  have hid2 : generateScreenId "https://app.example.com/workspaces" =
    "screen-workspaces" := rfl
  have hlb1 : generateScreenLabel "https://app.example.com/" = "Landing Page" := rfl
  have hlb2 : generateScreenLabel "https://app.example.com/workspaces" =
    "Workspaces" := rfl
  have hp1 : parseUrl "https://app.example.com/" = some ⟨"/"⟩ := rfl
  have hp2 : parseUrl "https://app.example.com/workspaces" =
    some ⟨"/workspaces"⟩ := rfl
  have ht : toString (1 : Nat) = "1" := rfl
  refine ⟨?_, ?_, ?_⟩ <;>
    (simp [flowsOf, flowsPipeline, extractScreens, extractFlows, sessionTrace,
      clickEvent, navEvent, screenScanSessions, screenScanEvents, screenStep,
      navTarget, ensureScreen, attributeActions, flowScanSessions,
      flowScanEvents, flowStep, buildFlowStep, flowNavStep, effectiveMinSteps,
      effectiveMaxDuration, clickStep, navToWorkspacesStep,
      landingToWorkspacesFlow, hid1, hid2, hlb1, hlb2, hp1, hp2, ht,
      addActions, addUnique, Ne.symm hne, hdur]) <;>
    rfl

/-- Claim C1 witness: the amended statement at a concrete session. -/
theorem flowAssembler_navigation_flow_emission_witness :
    ((200 : Int) - 0 ≤ 300000 ∧ "c1" ≠ "c2") ∧
    flowsOf (sessionTrace "https://app.example.com/" 0
        [clickEvent "c1" (some "#a") 10, clickEvent "c2" none 20,
         navEvent "n1" 200 "https://app.example.com/workspaces"]) {} =
      Except.ok [landingToWorkspacesFlow
        [clickStep (some "#a") 0, clickStep none 10, navToWorkspacesStep 180]
        200] :=
  ⟨⟨by decide, by decide⟩,
    (flowAssembler_navigation_flow_emission "c1" "c2" "n1" (some "#a") none
      0 10 20 200 (by decide) (by decide)).1⟩

/-! ## Claim C2 -/

/-- The trace refuting claim C2's exclusivity part: one click on the
landing screen, then a navigation to `/workspaces`. -/
def c2CounterTrace : TraceOutput :=
  sessionTrace "https://app.example.com/" 0
    [clickEvent "c1" (some "#btn") 10,
     navEvent "n1" 20 "https://app.example.com/workspaces"]

def c2LandingScreen : Screen :=
  { id := "screen-landing", urlPattern := "/", label := "Landing Page",
    primaryActions := ["c1"] }

def c2WorkspacesScreen : Screen :=
  { id := "screen-workspaces", urlPattern := "/workspaces",
    label := "Workspaces", primaryActions := ["c1"] }

/-- Claim C2 as stated is false: the click `c1` happened on the landing
screen, yet its id also ends up in `screen-workspaces`'s
`primaryActions`, because the session's accumulated `actions` list is
never cleared on navigation. -/
theorem screenSegmenter_click_leak_counterexample :
    extractScreens c2CounterTrace =
      Except.ok [c2LandingScreen, c2WorkspacesScreen] ∧
    c2WorkspacesScreen.id ≠ "screen-landing" ∧
    "c1" ∈ c2WorkspacesScreen.primaryActions := by
  refine ⟨rfl, by decide, by decide⟩

/-- Claim C2 (amended): every click's id is added to the `primaryActions`
of the screen current at the click, each screen's `primaryActions` list
is duplicate-free, attributed ids persist — and, because the session's
`actions` accumulator is never cleared, every previously accumulated
click id is *also* attributed to the screen current at each later event
of the session (so click ids do reach other screens). -/
theorem screenSegmenter_click_attribution :
    (∀ (trace : TraceOutput) (screens : List Screen),
      extractScreens trace = Except.ok screens →
      ∀ s ∈ screens, s.primaryActions.Nodup) ∧
    (∀ (st : ScreenScanState) (e : TraceEvent) (st' : ScreenScanState),
      screenStep st e = Except.ok st' → e.type = "click" →
      st.currentUrl ≠ "" →
      ∃ s ∈ st'.screens, s.id = generateScreenId st.currentUrl ∧
        e.id ∈ s.primaryActions) ∧
    (∀ (st : ScreenScanState) (e : TraceEvent) (st' : ScreenScanState),
      screenStep st e = Except.ok st' → ∀ s ∈ st.screens,
      ∃ s' ∈ st'.screens, s'.id = s.id ∧
        ∀ a ∈ s.primaryActions, a ∈ s'.primaryActions) ∧
    (∀ (st : ScreenScanState) (e : TraceEvent) (st' : ScreenScanState),
      screenStep st e = Except.ok st' →
      navTarget st.currentUrl e ≠ "" →
      ∀ a ∈ st.actions, ∃ s ∈ st'.screens,
        s.id = generateScreenId (navTarget st.currentUrl e) ∧
          a ∈ s.primaryActions) := by
  refine ⟨?_, ?_, ?_, ?_⟩
  · intro trace screens h
    exact screenScanSessions_nodup h (fun s hs => absurd hs (List.not_mem_nil s))
  · intro st e st' h hty hcu
    exact screenStep_click h hty hcu
  · intro st e st' h s hs
    exact screenStep_keeps h hs
  · intro st e st' h hcu
    exact screenStep_leaks h hcu

/-- Claim C2 witness: the amended statement at the concrete two-screen
trace and at its first event step. -/
theorem screenSegmenter_click_attribution_witness :
    extractScreens c2CounterTrace =
      Except.ok [c2LandingScreen, c2WorkspacesScreen] ∧
    c2WorkspacesScreen.primaryActions.Nodup :=
  ⟨rfl, screenSegmenter_click_attribution.1 c2CounterTrace
    [c2LandingScreen, c2WorkspacesScreen] rfl c2WorkspacesScreen
    (by simp)⟩

/-! ## Claim C4 -/

/-- A trace whose root URL does not parse. -/
def c4MalformedTrace : TraceOutput :=
  sessionTrace "not a url" 0 [clickEvent "c1" none 5]

/-- Claim C4 is the intended behavior (`generateScreenId` catches the
`URL` failure and returns the reserved `screen-unknown` id), but screen
extraction still throws: creating the screen record evaluates
`new URL(currentUrl).pathname` outside any guard (flows.ts:104), so the
stage aborts with `success: false` instead of completing normally. -/
theorem screenSegmenter_malformed_url_is_fatal :
    generateScreenId "not a url" = "screen-unknown" ∧
    extractScreens c4MalformedTrace = Except.error "Invalid URL" ∧
    (flowsStage (some (Except.ok c4MalformedTrace)) {}).1.success = false ∧
    (flowsStage (some (Except.ok c4MalformedTrace)) {}).2 = [] :=
  ⟨rfl, rfl, rfl, rfl⟩

/-! ## Claim C3 -/

theorem pne_non_network {acc : List (String × EntityAcc)} {e : TraceEvent}
    (h : ¬e.type = "network") : processNetworkEvent acc e = acc := by
  simp [processNetworkEvent, h]

theorem foldl_pne_flat (ss : List TraceSession) (acc : List (String × EntityAcc)) :
    ss.foldl (fun acc s => s.events.foldl processNetworkEvent acc) acc =
      (ss.flatMap (fun s => s.events)).foldl processNetworkEvent acc := by
  induction ss generalizing acc with
  | nil => rfl
  | cons s rest ih => simp [List.flatMap_cons, List.foldl_append, ih]

theorem foldl_pne_filter (l : List TraceEvent) (acc : List (String × EntityAcc)) :
    l.foldl processNetworkEvent acc =
      (l.filter (fun e => decide (e.type = "network"))).foldl
        processNetworkEvent acc := by
  induction l generalizing acc with
  | nil => rfl
  | cons e rest ih =>
    by_cases he : e.type = "network"
    · simp [List.filter_cons, he, ih]
    · simp [List.filter_cons, he, pne_non_network he, ih]

/-- The entity accumulation only depends on the trace's network events. -/
theorem entityAccs_eq_networkEvents (trace : TraceOutput) :
    entityAccs trace = (networkEvents trace).foldl processNetworkEvent [] := by
  unfold entityAccs networkEvents
  rw [foldl_pne_flat, foldl_pne_filter]

/-- The five CRUD network events of claim C3 (ids and timestamps are
arbitrary; shapes are absent). -/
def widgetNetworkEvents (i1 i2 i3 i4 i5 : String) (t1 t2 t3 t4 t5 : Int) :
    List TraceEvent :=
  [networkEvent i1 t1 "GET" "/api/widgets",
   networkEvent i2 t2 "POST" "/api/widgets",
   networkEvent i3 t3 "GET" "/api/widgets/42",
   networkEvent i4 t4 "PATCH" "/api/widgets/42",
   networkEvent i5 t5 "DELETE" "/api/widgets/42"]

def widgetOperations : List EntityOperation :=
  [{ kind := "list", method := "GET", path := "/api/widgets" },
   { kind := "create", method := "POST", path := "/api/widgets" },
   { kind := "read", method := "GET", path := "/api/widgets/:id" },
   { kind := "update", method := "PATCH", path := "/api/widgets/:id" },
   { kind := "delete", method := "DELETE", path := "/api/widgets/:id" }]

def widgetEntity : Entity :=
  { name := "Widget", label := "Widget", fields := [],
    operations := widgetOperations,
    metadata := some { baseUrl := some "/api/widgets" } }

/-- Claim C3: for every trace whose network events are exactly
`GET/POST /api/widgets` and `GET/PATCH/DELETE /api/widgets/42`, the
Entity Resolver emits exactly one entity, `Widget`, with exactly the five
CRUD operations and no duplicate `(method, normalized path)` pair. -/
theorem entityResolver_widget_crud (trace : TraceOutput)
    (i1 i2 i3 i4 i5 : String) (t1 t2 t3 t4 t5 : Int)
    (h : networkEvents trace = widgetNetworkEvents i1 i2 i3 i4 i5 t1 t2 t3 t4 t5) :
    entitiesPipeline trace = [widgetEntity] ∧
    widgetEntity.operations.map (fun op => op.kind) =
      ["list", "create", "read", "update", "delete"] ∧
    (widgetEntity.operations.map (fun op => (op.method, op.path))).Nodup := by
  refine ⟨?_, by decide, by decide⟩
  have hn1 : normalizeUrlPath "/api/widgets" = "/api/widgets" := rfl
  have hn2 : normalizeUrlPath "/api/widgets/42" = "/api/widgets/:id" := rfl
  have he1 : extractEntityName "/api/widgets" = "Widget" := rfl
  have he2 : extractEntityName "/api/widgets/:id" = "Widget" := rfl
  have hk1 : inferOperationKind "GET" "/api/widgets" = "list" := rfl
  have hk2 : inferOperationKind "POST" "/api/widgets" = "create" := rfl
  have hk3 : inferOperationKind "GET" "/api/widgets/:id" = "read" := rfl
  have hk4 : inferOperationKind "PATCH" "/api/widgets/:id" = "update" := rfl
  have hk5 : inferOperationKind "DELETE" "/api/widgets/:id" = "delete" := rfl
  unfold entitiesPipeline
  rw [entityAccs_eq_networkEvents, h]
  simp [widgetNetworkEvents, networkEvent, processNetworkEvent,
    updateEntityAcc, strTruthy, shapeTruthy, hn1, hn2, he1, he2,
    hk1, hk2, hk3, hk4, hk5, finalizeEntity, hasFieldNamed, widgetEntity,
    widgetOperations]

/-- The concrete witness trace for claim C3: the five widget CRUD calls
with a click event interleaved (which entity extraction ignores). -/
def c3WitnessTrace : TraceOutput :=
  sessionTrace "https://app.example.com/" 0
    (clickEvent "c0" none 0 ::
      widgetNetworkEvents "e1" "e2" "e3" "e4" "e5" 1 2 3 4 5)

/-- Claim C3 witness: the theorem applied at the concrete trace. -/
theorem entityResolver_widget_crud_witness :
    networkEvents c3WitnessTrace =
      widgetNetworkEvents "e1" "e2" "e3" "e4" "e5" 1 2 3 4 5 ∧
    entitiesPipeline c3WitnessTrace = [widgetEntity] :=
  ⟨rfl, (entityResolver_widget_crud c3WitnessTrace
    "e1" "e2" "e3" "e4" "e5" 1 2 3 4 5 rfl).1⟩

/-! ## Claim C8 -/

/-- Claim C8: when the input trace file is missing or its contents do not
parse, each stage — flows, entities, rules — catches the error at its own
boundary: it returns `success = false` with the underlying error message
as the sole entry of `errors`, and writes no output file. -/
theorem stages_fatal_io_error_handling
    (traceFile : Option (Except String TraceOutput))
    (flowsFile : Option (Except String FlowsFileData))
    (entitiesFile : Option (Except String EntitiesFileData))
    (fcfg : FlowsConfig) (ecfg : EntitiesConfig) (rcfg : RulesConfig)
    (now : String)
    (h : traceFile = none ∨ ∃ m, traceFile = some (Except.error m)) :
    ((flowsStage traceFile fcfg).1.success = false ∧
      (flowsStage traceFile fcfg).1.errors =
        some [readFailMsg traceFile fcfg.tracePath] ∧
      (flowsStage traceFile fcfg).2 = []) ∧
    ((entitiesStage traceFile ecfg now).1.success = false ∧
      (entitiesStage traceFile ecfg now).1.errors =
        some [readFailMsg traceFile ecfg.tracePath] ∧
      (entitiesStage traceFile ecfg now).2 = []) ∧
    ((extractRulesStage traceFile flowsFile entitiesFile rcfg now).1.success
        = false ∧
      (extractRulesStage traceFile flowsFile entitiesFile rcfg now).1.errors =
        some [readFailMsg traceFile rcfg.tracePath] ∧
      (extractRulesStage traceFile flowsFile entitiesFile rcfg now).2 = []) := by
  rcases h with rfl | ⟨m, rfl⟩ <;>
    simp [flowsStage, entitiesStage, extractRulesStage, loadInputs,
      readJsonFile, readFailMsg, flowsFailResult]

/-- Claim C8 witness: the statement at a missing trace file. -/
theorem stages_fatal_io_error_handling_witness :
    ((none : Option (Except String TraceOutput)) = none ∨
      ∃ m, (none : Option (Except String TraceOutput)) =
        some (Except.error m)) ∧
    (flowsStage none {}).1.success = false ∧
    (entitiesStage none {} "2026-01-01T00:00:00.000Z").1.success = false ∧
    (extractRulesStage none none none {} "2026-01-01T00:00:00.000Z").2 = [] :=
  ⟨Or.inl rfl,
    (stages_fatal_io_error_handling none none none {} {} {}
      "2026-01-01T00:00:00.000Z" (Or.inl rfl)).1.1,
    (stages_fatal_io_error_handling none none none {} {} {}
      "2026-01-01T00:00:00.000Z" (Or.inl rfl)).2.1.1,
    (stages_fatal_io_error_handling none none none {} {} {}
      "2026-01-01T00:00:00.000Z" (Or.inl rfl)).2.2.2.2⟩

/-! ## Claim C9 -/

/-- Claim C9: entity extraction is deterministic up to the
`metadata.extractedAt` timestamp — running the stage twice over the same
(unchanged) trace file yields the same result record, identical written
`entities` arrays, and identical written totals; only the sampled clock
value can differ. -/
theorem entitiesStage_deterministic
    (traceFile : Option (Except String TraceOutput)) (cfg : EntitiesConfig)
    (now1 now2 : String) :
    (entitiesStage traceFile cfg now1).1 = (entitiesStage traceFile cfg now2).1 ∧
    writtenEntityArrays (entitiesStage traceFile cfg now1).2 =
      writtenEntityArrays (entitiesStage traceFile cfg now2).2 ∧
    writtenEntityTotals (entitiesStage traceFile cfg now1).2 =
      writtenEntityTotals (entitiesStage traceFile cfg now2).2 := by
  cases hr : readJsonFile traceFile cfg.tracePath with
  | error m => simp [entitiesStage, hr, writtenEntityArrays, writtenEntityTotals]
  | ok trace =>
    by_cases hm : cfg.includeMetadata ≠ some false <;>
      simp [entitiesStage, hr, hm, writtenEntityArrays, writtenEntityTotals]

/-! ## Field invariants of the Entity Resolver (claims C6, C10) -/

/-- Every field the resolver ever stores: never flagged required, never
given constraints, and never named with a leading underscore (such keys
are skipped on extraction). -/
def goodField (f : EntityField) : Prop :=
  f.required = false ∧ f.constraints = none ∧ f.name.toList.head? ≠ some '_'

/-- A `foldl` preserves any invariant its step preserves. -/
theorem foldl_preserve {α β : Type} (P : α → Prop) {step : α → β → α}
    (hstep : ∀ a b, P a → P (step a b)) :
    ∀ (l : List β) (a : α), P a → P (l.foldl step a) := by
  intro l
  induction l with
  | nil => exact fun a ha => ha
  | cons b rest ih => exact fun a ha => ih _ (hstep a b ha)

theorem goodField_addShapeField {source : String} {fields : List EntityField}
    {kv : String × NetworkShape} (h : ∀ f ∈ fields, goodField f) :
    ∀ f ∈ addShapeField source fields kv, goodField f := by
  intro f hf
  simp only [addShapeField] at hf
  split_ifs at hf with h1 h2
  · exact h f hf
  · rcases List.mem_map.mp hf with ⟨f₀, h₀, rfl⟩
    have hg := h f₀ h₀
    unfold goodField at hg ⊢
    split_ifs <;> simp_all
  · rcases List.mem_append.mp hf with hmem | hmem
    · exact h f hmem
    · rcases List.mem_singleton.mp hmem with rfl
      refine ⟨rfl, rfl, ?_⟩
      intro hcontra
      apply h1
      simp only [Bool.or_eq_true, decide_eq_true_eq]
      exact Or.inl hcontra

theorem goodField_extractFields {shape : NetworkShape} {source : String}
    {fields : List EntityField} (h : ∀ f ∈ fields, goodField f) :
    ∀ f ∈ extractFieldsFromShape shape source fields, goodField f := by
  unfold extractFieldsFromShape
  exact foldl_preserve (fun fs => ∀ f ∈ fs, goodField f)
    (fun fs kv hfs => goodField_addShapeField hfs) (shapeEntries shape) fields h

/-- Invariant of the entity accumulator map. -/
def goodAccMap (acc : List (String × EntityAcc)) : Prop :=
  ∀ p ∈ acc, ∀ f ∈ p.2.fields, goodField f

/-- Shape extraction behind its truthiness guard preserves the invariant. -/
theorem goodFields_shapeIte {fields : List EntityField}
    (h : ∀ f ∈ fields, goodField f) (os : Option NetworkShape) (src : String) :
    ∀ f ∈ (if shapeTruthy os then
        extractFieldsFromShape (os.getD (NetworkShape.obj [])) src fields
      else fields), goodField f := by
  split_ifs
  · exact goodField_extractFields h
  · exact h

/-- The per-entity update preserves the field invariant. -/
theorem goodFields_updateEntityAcc {e : TraceEvent}
    {method normalizedPath : String} {data : EntityAcc}
    (h : ∀ f ∈ data.fields, goodField f) :
    ∀ f ∈ (updateEntityAcc e method normalizedPath data).fields, goodField f := by
  unfold updateEntityAcc
  exact goodFields_shapeIte (goodFields_shapeIte h e.requestShape "request")
    e.responseShape "response"

theorem goodAccMap_pne {acc : List (String × EntityAcc)} {e : TraceEvent}
    (h : goodAccMap acc) : goodAccMap (processNetworkEvent acc e) := by
  intro p hp
  simp only [processNetworkEvent] at hp
  split_ifs at hp with hskip hname hfound
  · exact h p hp
  · exact h p hp
  · rcases List.mem_map.mp hp with ⟨p₀, hp₀, rfl⟩
    have hp₀good : ∀ f ∈ p₀.2.fields, goodField f := h p₀ hp₀
    by_cases hmatch : p₀.1 = extractEntityName (normalizeUrlPath (e.url.getD ""))
    · simp only [hmatch, if_true]
      exact goodFields_updateEntityAcc hp₀good
    · simp only [hmatch, if_false]
      exact hp₀good
  · rcases List.mem_map.mp hp with ⟨p₀, hp₀, rfl⟩
    have hp₀good : ∀ f ∈ p₀.2.fields, goodField f := by
      rcases List.mem_append.mp hp₀ with hmem | hmem
      · exact h p₀ hmem
      · rcases List.mem_singleton.mp hmem with rfl
        intro f hf
        cases hf
    by_cases hmatch : p₀.1 = extractEntityName (normalizeUrlPath (e.url.getD ""))
    · simp only [hmatch, if_true]
      exact goodFields_updateEntityAcc hp₀good
    · simp only [hmatch, if_false]
      exact hp₀good

theorem entityAccs_good (trace : TraceOutput) : goodAccMap (entityAccs trace) := by
  unfold entityAccs
  refine foldl_preserve goodAccMap (fun acc s hacc =>
    foldl_preserve goodAccMap (fun acc e h => goodAccMap_pne h) s.events acc hacc)
    trace.sessions [] ?_
  intro p hp
  cases hp

/-- Every field of every resolver-produced entity satisfies the
invariant. -/
theorem entitiesPipeline_goodFields (trace : TraceOutput) :
    ∀ e ∈ entitiesPipeline trace, ∀ f ∈ e.fields, goodField f := by
  intro e he
  rcases List.mem_map.mp he with ⟨p, hp, rfl⟩
  intro f hf
  exact entityAccs_good trace p hp f (by simpa [finalizeEntity] using hf)

/-! ## Claim C10 -/

theorem foldl_append_eq_flatMap {α β : Type} (g : β → List α) :
    ∀ (l : List β) (init : List α),
      l.foldl (fun acc x => acc ++ g x) init = init ++ l.flatMap g := by
  intro l
  induction l with
  | nil => intro init; simp
  | cons b rest ih =>
    intro init
    simp only [List.foldl_cons, List.flatMap_cons, ih, List.append_assoc]

/-- The validation-rule extraction is the concatenation of the per-field
rule lists, entity by entity, field by field. -/
theorem extractValidationRules_eq (inputs : RulesInputs) :
    extractValidationRules inputs =
      inputs.entities.flatMap (fun e =>
        e.fields.flatMap (fieldValidationRules e.name)) := by
  unfold extractValidationRules
  have hstep : (fun (rules : List ValidationRule) (entity : Entity) =>
      entity.fields.foldl (fun rules field =>
        rules ++ fieldValidationRules entity.name field) rules) =
      (fun rules entity =>
        rules ++ entity.fields.flatMap (fieldValidationRules entity.name)) := by
    funext rules entity
    exact foldl_append_eq_flatMap _ _ _
  rw [hstep, foldl_append_eq_flatMap]
  simp

theorem mem_ite_nil {α : Type} {c : Prop} [Decidable c] {l : List α} {x : α}
    (h : x ∈ if c then l else []) : x ∈ l := by
  split_ifs at h
  · exact h
  · cases h

/-- Every `required` rule produced for a never-required,
constraint-free field carries `heuristic` provenance. -/
theorem fieldValidationRules_required_heuristic {n : String} {f : EntityField}
    (hreq : f.required = false) (hcon : f.constraints = none) :
    ∀ r ∈ fieldValidationRules n f, r.rule = "required" →
      r.source = "heuristic" := by
  intro r hr hrule
  simp only [fieldValidationRules, hcon] at hr
  rcases List.mem_append.mp hr with hr | hr
  · rcases List.mem_append.mp hr with hr | hr
    · rcases List.mem_append.mp hr with hr | hr
      · rcases List.mem_singleton.mp (mem_ite_nil hr) with rfl
        simp [hreq]
      · rcases List.mem_append.mp (mem_ite_nil hr) with hr | hr
        · rcases List.mem_singleton.mp (mem_ite_nil hr) with rfl
          simp at hrule
        · rcases List.mem_singleton.mp hr with rfl
          simp at hrule
    · rcases List.mem_singleton.mp (mem_ite_nil hr) with rfl
      simp at hrule
  · exact absurd hr (List.not_mem_nil r)

/-- Claim C10: the Entity Resolver creates every field with
`required = false` and no code path ever sets it to `true`; consequently
the `field.required` branch of validation-rule extraction (which would tag
the rule `inferred`) never fires on resolver-produced entities — every
`required` rule for them is `heuristic`. -/
theorem entityResolver_required_always_false :
    (∀ (trace : TraceOutput), ∀ e ∈ entitiesPipeline trace, ∀ f ∈ e.fields,
      f.required = false) ∧
    (∀ (inputs : RulesInputs) (trace : TraceOutput),
      inputs.entities = entitiesPipeline trace →
      ∀ r ∈ extractValidationRules inputs, r.rule = "required" →
        r.source = "heuristic") := by
  constructor
  · intro trace e he f hf
    exact (entitiesPipeline_goodFields trace e he f hf).1
  · intro inputs trace hents r hr hrule
    rw [extractValidationRules_eq] at hr
    rcases List.mem_flatMap.mp hr with ⟨e, he, hr⟩
    rcases List.mem_flatMap.mp hr with ⟨f, hf, hr⟩
    rw [hents] at he
    have hg := entitiesPipeline_goodFields trace e he f hf
    exact fieldValidationRules_required_heuristic hg.1 hg.2.1 r hr hrule

/-- The response shape of the `_id` trace: a top-level `_id` key and no
`id` key. -/
def underscoreIdShape : NetworkShape :=
  NetworkShape.obj
    [("_id", NetworkShape.prim "string"), ("name", NetworkShape.prim "string")]

/-- A trace with one network read whose response exposes `_id` (and no
`id`). -/
def underscoreIdTrace : TraceOutput :=
  sessionTrace "https://app.example.com/" 0
    [networkEvent "e1" 1 "GET" "/api/things/7" none (some underscoreIdShape)]

def thingField : EntityField :=
  { name := "name", type := "string", required := false, source := "response" }

def thingMetadata : EntityMetadata :=
  { baseUrl := some "/api/things/:id", primaryKey := none }

def thingEntity : Entity :=
  { name := "Thing", label := "Thing", fields := [thingField],
    operations := [{ kind := "read", method := "GET", path := "/api/things/:id" }],
    metadata := some thingMetadata }

/-- Claim C10 witness: the statement at the concrete `_id` trace and its
single extracted field. -/
theorem entityResolver_required_always_false_witness :
    entitiesPipeline underscoreIdTrace = [thingEntity] ∧
    thingField.required = false :=
  ⟨rfl, entityResolver_required_always_false.1 underscoreIdTrace thingEntity
    (by rw [show entitiesPipeline underscoreIdTrace = [thingEntity] from rfl]
        exact List.mem_singleton_self _)
    thingField (List.mem_singleton_self _)⟩

/-! ## Claim C6 -/

/-- Claim C6 as stated is false: the trace's only response shape has a
top-level `_id` field and no `id` field, yet the resolver records
`metadata.primaryKey = none` (undefined), not `"_id"` — field extraction
skips every `_`-prefixed key, so the `_id` primary-key branch is dead. -/
theorem entityResolver_underscore_id_counterexample :
    (shapeEntries underscoreIdShape).map Prod.fst = ["_id", "name"] ∧
    entitiesPipeline underscoreIdTrace = [thingEntity] ∧
    thingEntity.metadata = some thingMetadata ∧
    thingMetadata.primaryKey = none ∧
    (none : Option String) ≠ some "_id" :=
  ⟨rfl, rfl, rfl, rfl, by decide⟩

theorem hasFieldNamed_underscore_id_false {fields : List EntityField}
    (h : ∀ f ∈ fields, goodField f) : hasFieldNamed fields "_id" = false := by
  unfold hasFieldNamed
  rw [List.find?_eq_none.mpr]
  · rfl
  · intro f hf
    simp only [decide_eq_true_eq]
    intro heq
    exact (h f hf).2.2 (by rw [heq]; rfl)

/-- Claim C6 (amended): since field extraction drops `_`-prefixed keys, a
resolver-produced entity never records `_id` as its primary key; when it
also has no field literally named `id`, `metadata.primaryKey` is left
undefined. -/
theorem entityResolver_primary_key_never_underscore_id
    (trace : TraceOutput) :
    ∀ e ∈ entitiesPipeline trace, ∀ md, e.metadata = some md →
      md.primaryKey ≠ some "_id" ∧
        (¬hasFieldNamed e.fields "id" → md.primaryKey = none) := by
  intro e he md hmd
  have hgood : ∀ f ∈ e.fields, goodField f := entitiesPipeline_goodFields trace e he
  rcases List.mem_map.mp he with ⟨p, hp, rfl⟩
  simp only [finalizeEntity, Option.some.injEq] at hmd
  have hfields : (finalizeEntity p).fields = p.2.fields := rfl
  have hund : hasFieldNamed p.2.fields "_id" = false :=
    hasFieldNamed_underscore_id_false (by simpa [hfields] using hgood)
  subst hmd
  by_cases hid : hasFieldNamed p.2.fields "id"
  · constructor
    · simp only [hid, if_true, hund]
      decide
    · intro hcontra
      exact absurd hid hcontra
  · constructor
    · simp [hid, hund]
    · intro _
      simp [hid, hund]

/-- Claim C6 witness: the amended statement at the concrete `_id` trace. -/
theorem entityResolver_primary_key_never_underscore_id_witness :
    thingMetadata.primaryKey ≠ some "_id" ∧ thingMetadata.primaryKey = none :=
  ⟨(entityResolver_primary_key_never_underscore_id underscoreIdTrace thingEntity
      (by rw [show entitiesPipeline underscoreIdTrace = [thingEntity] from rfl]
          exact List.mem_singleton_self _)
      thingMetadata rfl).1,
    (entityResolver_primary_key_never_underscore_id underscoreIdTrace thingEntity
      (by rw [show entitiesPipeline underscoreIdTrace = [thingEntity] from rfl]
          exact List.mem_singleton_self _)
      thingMetadata rfl).2 (by decide)⟩

/-! ## Append-only fold machinery (claims C5, C7) -/

/-- Holds when `new` is `old` with some suffix appended (all rule accumulators only
ever push). -/
def ExtendsTo {α : Type} (old new : List α) : Prop :=
  ∃ ext, new = old ++ ext

theorem extendsTo_refl {α : Type} (l : List α) : ExtendsTo l l :=
  ⟨[], by simp⟩

theorem extendsTo_trans {α : Type} {a b c : List α}
    (h1 : ExtendsTo a b) (h2 : ExtendsTo b c) : ExtendsTo a c := by
  rcases h1 with ⟨e1, rfl⟩
  rcases h2 with ⟨e2, rfl⟩
  exact ⟨e1 ++ e2, by simp⟩

theorem extendsTo_append {α : Type} (l ext : List α) : ExtendsTo l (l ++ ext) :=
  ⟨ext, rfl⟩

theorem mem_of_extendsTo {α : Type} {a b : List α} {x : α}
    (h : ExtendsTo a b) (hx : x ∈ a) : x ∈ b := by
  rcases h with ⟨ext, rfl⟩
  exact List.mem_append_left _ hx

theorem foldl_extendsTo {α β : Type} {step : List α → β → List α}
    (hstep : ∀ acc b, ExtendsTo acc (step acc b)) :
    ∀ (l : List β) (acc : List α), ExtendsTo acc (l.foldl step acc) := by
  intro l
  induction l with
  | nil => exact fun acc => extendsTo_refl acc
  | cons b rest ih =>
    exact fun acc => extendsTo_trans (hstep acc b) (ih (step acc b))

/-- If the fold's step is append-only, preserves `Q`, and processing the
element `b₀` under `Q` introduces an element satisfying `P`, then folding
over any list containing `b₀` yields an accumulator with such an
element. -/
theorem foldl_exists_of_mem {α β : Type} (P : α → Prop) (Q : List α → Prop)
    {step : List α → β → List α}
    (hext : ∀ acc b, ExtendsTo acc (step acc b))
    (hQ : ∀ acc b, Q acc → Q (step acc b))
    {b₀ : β} (hb : ∀ acc, Q acc → ∃ r ∈ step acc b₀, P r) :
    ∀ (l : List β) (acc : List α), Q acc → b₀ ∈ l →
      ∃ r ∈ l.foldl step acc, P r := by
  intro l
  induction l with
  | nil => exact fun acc _ hmem => absurd hmem (List.not_mem_nil b₀)
  | cons b rest ih =>
    intro acc hq hmem
    rcases List.mem_cons.mp hmem with rfl | hmem
    · rcases hb acc hq with ⟨r, hr, hP⟩
      exact ⟨r, mem_of_extendsTo (foldl_extendsTo hext rest (step acc b₀)) hr, hP⟩
    · exact ih (step acc b) (hQ acc b hq) hmem

/-! ## Claim C5 -/

/-- The `draft→active` transition the POST rule inserts. -/
def createTransition : StateTransition :=
  { fromState := "draft", toState := "active", trigger := "create_success",
    conditions := some ["POST request succeeded"] }

/-- The enum states of claim C5's `Order.status` field. -/
def orderStates : List String := ["draft", "active", "archived"]

/-- The transition-map invariant: the `draft→active` key is only ever
inserted with the `create_success` transition. -/
def CreateKeyInv (tm : List (String × StateTransition)) : Prop :=
  ∀ p ∈ tm, p.1 = "draft→active" → p.2 = createTransition

theorem addTransition_inv_create {tm : List (String × StateTransition)}
    (h : CreateKeyInv tm) :
    CreateKeyInv (addTransition tm "draft→active" createTransition) := by
  intro p hp hkey
  unfold addTransition at hp
  split_ifs at hp
  · exact h p hp hkey
  · rcases List.mem_append.mp hp with hp | hp
    · exact h p hp hkey
    · rcases List.mem_singleton.mp hp with rfl
      rfl

theorem addTransition_inv_other {tm : List (String × StateTransition)}
    {k : String} {t : StateTransition} (h : CreateKeyInv tm)
    (hk : k ≠ "draft→active") : CreateKeyInv (addTransition tm k t) := by
  intro p hp hkey
  unfold addTransition at hp
  split_ifs at hp
  · exact h p hp hkey
  · rcases List.mem_append.mp hp with hp | hp
    · exact h p hp hkey
    · rcases List.mem_singleton.mp hp with rfl
      exact absurd hkey hk

theorem addTransition_extendsTo (tm : List (String × StateTransition))
    (k : String) (t : StateTransition) : ExtendsTo tm (addTransition tm k t) := by
  unfold addTransition
  split_ifs
  · exact extendsTo_refl tm
  · exact extendsTo_append tm _

/-- The `DELETE` per-state insertion fold. -/
theorem deleteFold_extendsTo (states : List String)
    (tm : List (String × StateTransition)) :
    ExtendsTo tm (states.foldl (fun tm state =>
      if state ≠ "deleted" then
        addTransition tm (state ++ "→deleted")
          { fromState := state, toState := "deleted", trigger := "delete" }
      else tm) tm) := by
  refine foldl_extendsTo (fun acc s => ?_) states tm
  split_ifs
  · exact addTransition_extendsTo acc _ _
  · exact extendsTo_refl acc

theorem deleteFold_inv {states : List String}
    (hst : ∀ s ∈ states, s ++ "→deleted" ≠ "draft→active")
    {tm : List (String × StateTransition)} (h : CreateKeyInv tm) :
    CreateKeyInv (states.foldl (fun tm state =>
      if state ≠ "deleted" then
        addTransition tm (state ++ "→deleted")
          { fromState := state, toState := "deleted", trigger := "delete" }
      else tm) tm) := by
  induction states generalizing tm with
  | nil => exact h
  | cons s rest ih =>
    refine ih (fun x hx => hst x (List.mem_cons_of_mem s hx)) ?_
    dsimp only
    split_ifs
    · exact addTransition_inv_other h (hst s (List.mem_cons_self s rest))
    · exact h

theorem transitionStep_extendsTo (states : List String) (flowLower : String)
    (tm : List (String × StateTransition)) (step : FlowStep) :
    ExtendsTo tm (transitionStep states flowLower tm step) := by
  simp only [transitionStep]
  split_ifs <;>
    first
      | exact extendsTo_refl tm
      | exact addTransition_extendsTo tm _ _
      | exact extendsTo_trans (addTransition_extendsTo tm _ _)
          (deleteFold_extendsTo states _)
      | exact deleteFold_extendsTo states tm
      | exact extendsTo_trans (addTransition_extendsTo tm _ _)
          (extendsTo_trans (addTransition_extendsTo _ _ _)
            (deleteFold_extendsTo states _))
      | exact extendsTo_trans (addTransition_extendsTo tm _ _)
          (addTransition_extendsTo _ _ _)

theorem transitionStep_inv {flowLower : String}
    {tm : List (String × StateTransition)} {step : FlowStep}
    (hst : ∀ s ∈ orderStates, s ++ "→deleted" ≠ "draft→active")
    (h : CreateKeyInv tm) :
    CreateKeyInv (transitionStep orderStates flowLower tm step) := by
  simp only [transitionStep]
  split_ifs <;>
    first
      | exact h
      | exact addTransition_inv_create h
      | exact addTransition_inv_other h (by decide)
      | exact deleteFold_inv hst h
      | exact deleteFold_inv hst (addTransition_inv_create h)
      | exact deleteFold_inv hst (addTransition_inv_other h (by decide))
      | exact addTransition_inv_other (addTransition_inv_create h) (by decide)
      | exact deleteFold_inv hst (addTransition_inv_other
          (addTransition_inv_create h) (by decide))

/-- Inserting under the `draft→active` key puts the `create_success` pair
in the map — either it was already there (by the invariant) or it is
appended. -/
theorem addTransition_create_mem {tm : List (String × StateTransition)}
    (h : CreateKeyInv tm) :
    ("draft→active", createTransition) ∈
      addTransition tm "draft→active" createTransition := by
  unfold addTransition
  split_ifs with hf
  · rcases Option.isSome_iff_exists.mp hf with ⟨q, hq⟩
    have hmem := List.mem_of_find?_eq_some hq
    have hkey : q.1 = "draft→active" := by simpa using List.find?_some hq
    have hval : q.2 = createTransition := h q hmem hkey
    have hq2 : q = ("draft→active", createTransition) := Prod.ext hkey hval
    rw [← hq2]
    exact hmem
  · exact List.mem_append_right _ (List.mem_singleton_self _)

/-- Processing a non-last `POST` network step puts the `create_success`
pair in the transition map. -/
theorem transitionStep_post_mem {flowLower : String}
    {tm : List (String × StateTransition)} {step : FlowStep} {op : String}
    (h : CreateKeyInv tm) (hty : step.type = "network")
    (hop : step.operation = some op) (hopne : op ≠ "")
    (hpost : (op.toList.takeWhile (fun c => c ≠ ' ')).asString = "POST") :
    ("draft→active", createTransition) ∈
      transitionStep orderStates flowLower tm step := by
  simp only [transitionStep, hty, hop, strTruthy, hopne, Option.getD_some,
    hpost]
  simp only [show ("POST" = "PATCH") = False from by simp,
    show ("POST" = "PUT") = False from by simp,
    show ("POST" = "DELETE") = False from by simp]
  simp [hopne]
  exact addTransition_create_mem h

/-- A flow mentioning the entity with a POST network step before its last
step puts `create_success` into the extracted transition list. -/
theorem extractTransitions_order_create {flows : List Flow} {f : Flow}
    {st : FlowStep} {op : String}
    (hf : f ∈ flows)
    (hname : containsSub (jsToLower f.name).toList "order".toList = true)
    (hst : st ∈ f.steps.dropLast)
    (hty : st.type = "network") (hop : st.operation = some op) (hopne : op ≠ "")
    (hpost : (op.toList.takeWhile (fun c => c ≠ ' ')).asString = "POST") :
    createTransition ∈ extractTransitions "Order" orderStates flows := by
  have hdel : ∀ s ∈ orderStates, s ++ "→deleted" ≠ "draft→active" := by decide
  unfold extractTransitions
  have hpair : ∃ p ∈ flows.foldl (fun tm flow =>
      if !containsSub (jsToLower flow.name).toList (jsToLower "Order").toList
      then tm
      else flow.steps.dropLast.foldl
        (transitionStep orderStates (jsToLower flow.name)) tm) [],
      p = ("draft→active", createTransition) := by
    refine foldl_exists_of_mem
      (fun p => p = ("draft→active", createTransition)) CreateKeyInv
      ?_ ?_ ?_ flows [] (fun p hp => absurd hp (List.not_mem_nil p)) hf
    · intro acc b
      dsimp only
      split_ifs
      · exact extendsTo_refl acc
      · exact foldl_extendsTo (transitionStep_extendsTo orderStates _)
          b.steps.dropLast acc
    · intro acc b hq
      dsimp only
      split_ifs
      · exact hq
      · exact foldl_preserve CreateKeyInv
          (fun tm s h => transitionStep_inv hdel h) b.steps.dropLast acc hq
    · intro acc hq
      have hcond : (!containsSub (jsToLower f.name).toList
          (jsToLower "Order").toList) = false := by
        rw [show jsToLower "Order" = "order" from rfl, hname]
        decide
      dsimp only
      rw [if_neg (by rw [hcond]; simp)]
      refine foldl_exists_of_mem
        (fun p => p = ("draft→active", createTransition)) CreateKeyInv
        (fun tm s => transitionStep_extendsTo orderStates _ tm s)
        (fun tm s h => transitionStep_inv hdel h)
        (fun tm h => ⟨("draft→active", createTransition),
          transitionStep_post_mem h hty hop hopne hpost, rfl⟩)
        f.steps.dropLast acc hq hst
  rcases hpair with ⟨p, hp, rfl⟩
  exact List.mem_map_of_mem Prod.snd hp

/-- The state-machine fold emits a machine for the `Order` entity whose
transitions are the extracted ones. -/
theorem extractStateMachines_order {inputs : RulesInputs} {e : Entity}
    {sf : EntityField}
    (he : e ∈ inputs.entities) (hename : e.name = "Order")
    (hsf : findStateField e.fields = some sf)
    (henum : sf.enum = some orderStates)
    (htrans : createTransition ∈
      extractTransitions "Order" orderStates inputs.flows) :
    ∃ m ∈ extractStateMachines inputs, m.entity = "Order" ∧
      createTransition ∈ m.transitions := by
  unfold extractStateMachines
  refine foldl_exists_of_mem
    (fun (m : StateMachine) => m.entity = "Order" ∧ createTransition ∈ m.transitions)
    (fun _ => True) ?_ (fun _ _ _ => trivial) ?_ inputs.entities [] trivial he
  · intro acc b
    dsimp only
    cases hfs : findStateField b.fields with
    | none => exact extendsTo_refl acc
    | some s =>
      simp only
      split_ifs
      · exact extendsTo_refl acc
      · exact extendsTo_append acc _
  · intro acc _
    dsimp only
    rw [hsf]
    simp only [henum, hename]
    rw [if_neg (by decide)]
    exact ⟨_, List.mem_append_right _ (List.mem_singleton_self _), rfl, htrans⟩

/-! concrete inputs for claims C5 and C7 -/

def emptyTrace : TraceOutput := { meta := { url := "" }, sessions := [] }

def postOpStep : FlowStep :=
  { type := "network", screen := "s1", duration := 0,
    operation := some "POST /api/orders" }

def postNavStep : FlowStep :=
  { type := "navigate", screen := "s1", duration := 0 }

def orderStatusField : EntityField :=
  { name := "status", type := "enum", required := false, source := "response",
    enum := some ["draft", "active", "archived"] }

def orderEntity : Entity :=
  { name := "Order", label := "Order", fields := [orderStatusField],
    operations := [], metadata := none }

/-- "Order Creation" flow whose POST step is the *last* step. -/
def orderCreationPostLastFlow : Flow :=
  { id := "flow-1", name := "Order Creation", fromScreen := "a",
    toScreen := "b", steps := [postOpStep], avgDuration := 0 }

/-- "Order Creation" flow whose POST step is followed by a navigation. -/
def orderCreationFlow : Flow :=
  { id := "flow-1", name := "Order Creation", fromScreen := "a",
    toScreen := "b", steps := [postOpStep, postNavStep], avgDuration := 0 }

def c5CounterInputs : RulesInputs :=
  { trace := emptyTrace, screens := [], flows := [orderCreationPostLastFlow],
    entities := [orderEntity] }

def c5WitnessInputs : RulesInputs :=
  { trace := emptyTrace, screens := [], flows := [orderCreationFlow],
    entities := [orderEntity] }

def c5EmptyMachine : StateMachine :=
  { entity := "Order", states := ["draft", "active", "archived"],
    initial := "draft", transitions := [] }

/-- Claim C5 as stated is false: the flow "Order Creation" contains a POST
network step, but it is the flow's last step, and the transition scan
iterates only up to `steps.length - 1`, so no `draft→active` transition is
emitted. -/
theorem ruleExtractor_post_last_step_counterexample :
    orderCreationPostLastFlow.steps = [postOpStep] ∧
    postOpStep.type = "network" ∧
    postOpStep.operation = some "POST /api/orders" ∧
    extractStateMachines c5CounterInputs = [c5EmptyMachine] ∧
    c5EmptyMachine.transitions = [] :=
  ⟨rfl, rfl, rfl, rfl, rfl⟩

/-- Claim C5 (amended): for every rules input in which an entity `Order`
has a status-like field with enum `["draft","active","archived"]` and some
flow whose name contains "order" has a POST network step *before its last
step*, the Rule Extractor emits a `draft→active` transition with trigger
`create_success` for `Order`. -/
theorem ruleExtractor_order_create_transition
    (inputs : RulesInputs) (e : Entity) (sf : EntityField) (f : Flow)
    (st : FlowStep) (op : String)
    (he : e ∈ inputs.entities) (hename : e.name = "Order")
    (hsf : findStateField e.fields = some sf)
    (henum : sf.enum = some ["draft", "active", "archived"])
    (hf : f ∈ inputs.flows)
    (hname : containsSub (jsToLower f.name).toList "order".toList = true)
    (hst : st ∈ f.steps.dropLast)
    (hty : st.type = "network") (hop : st.operation = some op) (hopne : op ≠ "")
    (hpost : (op.toList.takeWhile (fun c => c ≠ ' ')).asString = "POST") :
    ∃ m ∈ extractStateMachines inputs, m.entity = "Order" ∧
      createTransition ∈ m.transitions :=
  extractStateMachines_order he hename hsf henum
    (extractTransitions_order_create hf hname hst hty hop hopne hpost)

/-- Claim C5 witness: the amended statement at a concrete input whose POST
step is followed by a navigation step. -/
theorem ruleExtractor_order_create_transition_witness :
    ∃ m ∈ extractStateMachines c5WitnessInputs, m.entity = "Order" ∧
      createTransition ∈ m.transitions :=
  ruleExtractor_order_create_transition c5WitnessInputs orderEntity
    orderStatusField orderCreationFlow postOpStep "POST /api/orders"
    (List.mem_singleton_self _) rfl rfl rfl (List.mem_singleton_self _)
    rfl (by decide) rfl rfl (by decide) rfl

/-! ## Claim C7 -/

def phaseField : EntityField :=
  { name := "phase", type := "string", required := false, source := "response",
    enum := some ["active"] }

def jobEntity : Entity :=
  { name := "Job", label := "Job", fields := [phaseField], operations := [],
    metadata := none }

def c7CounterInputs : RulesInputs :=
  { trace := emptyTrace, screens := [], flows := [], entities := [jobEntity] }

def c7WitnessInputs : RulesInputs :=
  { trace := emptyTrace, screens := [], flows := [], entities := [orderEntity] }

/-- Claim C7 as stated is false: a field named `phase` is status-like for
the state-machine extractor (one machine is emitted), yet the
business-rule extractor checks only `status`/`state`, so no
`workflow_progression` rule is emitted for the entity. -/
theorem ruleExtractor_phase_no_workflow_rule_counterexample :
    findStateField jobEntity.fields = some phaseField ∧
    (extractStateMachines c7CounterInputs).length = 1 ∧
    extractBusinessRules c7CounterInputs = [] :=
  ⟨rfl, rfl, rfl⟩

/-- The `workflow_progression` rule emitted for an entity. -/
def workflowRule (n : String) : BusinessRule :=
  { entity := n, name := "workflow_progression",
    description := n ++ " must follow defined workflow states",
    condition := "state transition requested",
    action := "validate transition is allowed",
    source := "inferred" }

/-- Claim C7 (amended): the Rule Extractor emits a `workflow_progression`
business rule exactly for entities exposing a field literally named
`status` or `state` (case-insensitive) — `phase` and `stage` fields
trigger a state machine but not this rule. -/
theorem ruleExtractor_status_state_workflow_rule (inputs : RulesInputs) :
    ∀ e ∈ inputs.entities,
      (e.fields.any (fun f =>
        jsToLower f.name ∈ (["status", "state"] : List String))) = true →
      ∃ r ∈ extractBusinessRules inputs, r.entity = e.name ∧
        r.name = "workflow_progression" := by
  intro e he hany
  unfold extractBusinessRules
  refine foldl_exists_of_mem
    (fun (r : BusinessRule) => r.entity = e.name ∧ r.name = "workflow_progression")
    (fun _ => True) ?_ (fun _ _ _ => trivial) ?_ inputs.entities [] trivial he
  · intro acc b
    dsimp only
    split_ifs <;> split <;>
      first
        | exact extendsTo_append acc _
        | exact extendsTo_refl acc
        | (split <;>
            first
              | exact extendsTo_trans (extendsTo_append acc _)
                  (extendsTo_append _ _)
              | exact extendsTo_append acc _
              | exact extendsTo_refl acc)
  · intro acc _
    dsimp only
    rw [if_pos hany]
    split <;>
      first
        | exact ⟨workflowRule e.name,
            List.mem_append_right _ (List.mem_singleton_self _), rfl, rfl⟩
        | (split <;>
            first
              | exact ⟨workflowRule e.name,
                  List.mem_append_right _ (List.mem_singleton_self _), rfl, rfl⟩
              | exact ⟨workflowRule e.name,
                  List.mem_append_left _
                    (List.mem_append_right _ (List.mem_singleton_self _)),
                  rfl, rfl⟩)

/-- Claim C7 witness: the amended statement at an entity with a `status`
field. -/
theorem ruleExtractor_status_state_workflow_rule_witness :
    ∃ r ∈ extractBusinessRules c7WitnessInputs, r.entity = "Order" ∧
      r.name = "workflow_progression" :=
  ruleExtractor_status_state_workflow_rule c7WitnessInputs orderEntity
    (List.mem_singleton_self _) rfl

end DsCli
